import Mathlib

/-!
Verification of the Rseq library (userspace restartable sequences).

Each part embeds one component of the C++ source shallowly in Lean:

* `codeTemplate`, `initForId`, `blockRseqOps`, `unblockRseqOps` — the
  generated machine-code stubs of `src/rseq/internal/Code.cpp`; the 54-byte
  stub region is modelled as a function from byte offset to byte value, and
  the 16-bit patch stores as two pointwise updates (little-endian).
* `execLoad`/`execStore`/`execStoreFence` — a small interpreter giving the
  semantics of the three stub entry points (the only instruction sequences
  a stub can contain: the unpatched op, or the short jump to the fail tail).
* `step`/`run` — a labelled transition system for the ownership arbiter of
  `src/rseq/internal/Rseq.cpp` (begin slow path, end, fenceWith eviction),
  one transition per atomic access of the source.
* functional models of `end()`, `IdAllocator`, the `Value<T>` conversions of
  `src/rseq/Rseq.h`, and `tryParseCpu` of `src/rseq/internal/ThreadControl.cpp`.
-/

/-- Pointwise update of a total map: the value of a store into one cell of an
array or one machine word, leaving every other cell unchanged. -/
def upd {α : Type} [DecidableEq α] {β : Type} (f : α → β) (a : α) (b : β) :
    α → β :=
  fun x => if x = a then b else f x

/-! ## Code stubs (src/rseq/internal/Code.cpp)

Bytes are `Nat` values (< 256 in the template). The stub region
`unsigned char code_[54]` is modelled as a map from offset to byte. -/

/-- The byte-for-byte translation of `codeTemplate` from Code.cpp: the 8-byte
load at offset 0, the store at 16, the xchg store-fence at 24, and the shared
failure tail at 32 (movabs of the cached-cpu cell address, `movl $-1`,
`mov $1, %eax`, `retq`). -/
def codeTemplate : List Nat :=
  [0x48, 0x8b, 0x06,
   0x48, 0x89, 0x07,
   0x31, 0xc0,
   0xc3,
   0x00, 0x00, 0x00, 0x00, 0x00, 0x00, 0x00,
   0x48, 0x89, 0x37,
   0x31, 0xc0,
   0xc3,
   0x00, 0x00,
   0x48, 0x87, 0x37,
   0x31, 0xc0,
   0xc3,
   0x00, 0x00,
   0x48, 0xb8,
   0x42, 0x42, 0x42, 0x42, 0x42, 0x42, 0x42, 0x42,
   0xc7, 0x00, 0xff, 0xff, 0xff, 0xff,
   0xb8, 0x01, 0x00, 0x00, 0x00,
   0xc3]

/-- The template viewed as a byte map (offsets ≥ 54 read as 0). -/
def templateBytes : Nat → Nat := fun i => codeTemplate.getD i 0

def kLoadOffset : Nat := 0
def kStoreOffset : Nat := 16
def kStoreFenceOffset : Nat := 24
def kReturnFailureOffset : Nat := 32
def kThreadCachedCpuOffset : Nat := 34
def kJmpInstructionSize : Nat := 2

def kLoadToFailureJmpSize : Nat :=
  kReturnFailureOffset - kLoadOffset - kJmpInstructionSize
def kStoreToFailureJmpSize : Nat :=
  kReturnFailureOffset - kStoreOffset - kJmpInstructionSize
def kStoreFenceToFailureJmpSize : Nat :=
  kReturnFailureOffset - kStoreFenceOffset - kJmpInstructionSize

def kJmpBytecode : Nat := 0xeb
def kLoadReplacement : Nat := kJmpBytecode ||| (kLoadToFailureJmpSize <<< 8)
def kStoreReplacement : Nat := kJmpBytecode ||| (kStoreToFailureJmpSize <<< 8)
def kStoreFenceReplacement : Nat :=
  kJmpBytecode ||| (kStoreFenceToFailureJmpSize <<< 8)

/-- A relaxed atomic 16-bit store at byte offset `off`, little-endian (x86):
the low byte lands at `off`, the high byte at `off + 1`. -/
def store16 (code : Nat → Nat) (off : Nat) (v : Nat) : Nat → Nat :=
  upd (upd code off (v % 256)) (off + 1) (v / 256 % 256)

/-- A byte-wise memcpy of `bs` into `code` starting at offset `off`. -/
def writeBytes : (Nat → Nat) → Nat → List Nat → (Nat → Nat)
  | code, _, [] => code
  | code, off, b :: bs => writeBytes (upd code off b) (off + 1) bs

/-- `Code::initForId`: copy the template into the stub region, then memcpy the
8 bytes of the owning thread's cached-cpu cell address over the `0x42`
placeholder at offset `kThreadCachedCpuOffset`. -/
def initForId (ptrBytes : List Nat) : Nat → Nat :=
  writeBytes templateBytes kThreadCachedCpuOffset ptrBytes

/-- `Code::blockRseqOps`: three relaxed 16-bit stores writing a short
jump-to-fail-tail over the first instruction of each op. -/
def blockRseqOps (code : Nat → Nat) : Nat → Nat :=
  store16
    (store16 (store16 code kLoadOffset kLoadReplacement)
      kStoreOffset kStoreReplacement)
    kStoreFenceOffset kStoreFenceReplacement

def kLoadBytes : Nat := 0x8b48
def kStoreBytes : Nat := 0x8948
def kStoreFenceBytes : Nat := 0x8748

/-- `Code::unblockRseqOps`: three relaxed 16-bit stores restoring the original
2-byte opcode prefix of each op. -/
def unblockRseqOps (code : Nat → Nat) : Nat → Nat :=
  store16
    (store16 (store16 code kLoadOffset kLoadBytes) kStoreOffset kStoreBytes)
    kStoreFenceOffset kStoreFenceBytes

/-! ## Stub semantics

A stub entry point only ever contains one of two instruction sequences: the
unpatched op from the template, or the 2-byte short jump written by
`blockRseqOps`. `execLoad`/`execStore`/`execStoreFence` interpret exactly
those shapes and return `none` on anything else. An outcome records the
stub's integer return value, the store (if any) to the load destination
`*dst`, the store (if any) to the slot, and the write (address, value)
performed on a cached-cpu cell by the failure tail. -/

/-- Little-endian decoding of a byte list (as used for the movabs immediate). -/
def leBytes : List Nat → Nat
  | [] => 0
  | b :: bs => b + 256 * leBytes bs

/-- The cached-cpu cell address embedded in the failure tail: the 8-byte
immediate at offsets 34..41, little-endian. -/
def cellAddr (code : Nat → Nat) : Nat :=
  leBytes [code 34, code 35, code 36, code 37, code 38, code 39, code 40,
    code 41]

/-- The failure tail at offset 32 is intact: `movabs`, `movl $-1, (%rax)`,
`mov $1, %eax`, `retq` (the 8 immediate bytes at 34..41 are data). -/
def failTailIntact (code : Nat → Nat) : Bool :=
  code 32 == 0x48 && code 33 == 0xb8 &&
  code 42 == 0xc7 && code 43 == 0x00 &&
  code 44 == 0xff && code 45 == 0xff &&
  code 46 == 0xff && code 47 == 0xff &&
  code 48 == 0xb8 && code 49 == 0x01 &&
  code 50 == 0x00 && code 51 == 0x00 &&
  code 52 == 0x00 && code 53 == 0xc3

/-- The entry at `off` is a 2-byte short jump to the failure tail (opcode
0xeb, 8-bit displacement, target = off + 2 + disp = `kReturnFailureOffset`). -/
def jmpToFailAt (code : Nat → Nat) (off : Nat) : Bool :=
  code off == kJmpBytecode &&
  off + kJmpInstructionSize + code (off + 1) == kReturnFailureOffset &&
  failTailIntact code

structure OpOutcome where
  retVal : Nat
  dstWrite : Option Nat
  slotWrite : Option Nat
  cellWrite : Option (Nat × Int)
deriving DecidableEq, Repr

/-- Semantics of the load stub entry (offset 0): `mov (%rsi),%rax`,
`mov %rax,(%rdi)`, `xor %eax,%eax`, `retq` — or the patched jump to the
failure tail, which stores -1 through the embedded cell address and
returns 1. -/
def execLoad (code : Nat → Nat) (slotVal : Nat) : Option OpOutcome :=
  if code 0 == 0x48 && code 1 == 0x8b && code 2 == 0x06 &&
     code 3 == 0x48 && code 4 == 0x89 && code 5 == 0x07 &&
     code 6 == 0x31 && code 7 == 0xc0 && code 8 == 0xc3
  then some ⟨0, some slotVal, none, none⟩
  else if jmpToFailAt code kLoadOffset then
    some ⟨1, none, none, some (cellAddr code, -1)⟩
  else none

/-- Semantics of the store stub entry (offset 16): `mov %rsi,(%rdi)`,
`xor %eax,%eax`, `retq` — or the patched jump. -/
def execStore (code : Nat → Nat) (val : Nat) : Option OpOutcome :=
  if code 16 == 0x48 && code 17 == 0x89 && code 18 == 0x37 &&
     code 19 == 0x31 && code 20 == 0xc0 && code 21 == 0xc3
  then some ⟨0, none, some val, none⟩
  else if jmpToFailAt code kStoreOffset then
    some ⟨1, none, none, some (cellAddr code, -1)⟩
  else none

/-- Semantics of the store-fence stub entry (offset 24): `xchg %rsi,(%rdi)`,
`xor %eax,%eax`, `retq` — or the patched jump. -/
def execStoreFence (code : Nat → Nat) (val : Nat) : Option OpOutcome :=
  if code 24 == 0x48 && code 25 == 0x87 && code 26 == 0x37 &&
     code 27 == 0x31 && code 28 == 0xc0 && code 29 == 0xc3
  then some ⟨0, none, some val, none⟩
  else if jmpToFailAt code kStoreFenceOffset then
    some ⟨1, none, none, some (cellAddr code, -1)⟩
  else none

/-- The boolean result of the public wrappers `rseq::load`, `rseq::store` and
`rseq::storeFence` in src/rseq/Rseq.h: the stub's return value inverted
(`!trampoline(...)`), so 0 means success/true and the sentinel 1 means
failure/false. -/
def publicResult (o : Option OpOutcome) : Option Bool :=
  o.map fun r => r.retVal == 0

/-! ## Ownership arbiter (src/rseq/internal/Rseq.cpp)

A labelled transition system over all threads. Each transition performs one
atomic access of the source (one load, store or compare-and-set of the
per-shard `AtomicOwnerAndEvictor` word, one store to a cached-cpu cell, or
one stub patch/unpatch), so every interleaving of the source's atomic
accesses is a trace of the model. `sched_getcpu()` and
`ThreadControl::curCpu()` results are inputs of the corresponding
transitions. Thread ids play the role of `me->id()`; a thread's `ThreadControl`
fields (`accessing`, code stub) and the thread-locals `lastCpu` and the
cached-cpu cell live in its `TState`. The asymmetric fences are no-ops on
the modelled state. -/

structure OwnerAndEvictor where
  ownerId : Nat
  evictorId : Nat
deriving DecidableEq, Repr

/-- Program points of a thread, one per atomic access of Rseq.cpp.
`endXxx` points carry whether the `end()` call is the one at the start of
`beginSlowPath` (and so continues into `unblockRseqOps` and
`acquireCpuOwnership`) or a plain `rseq::end()` call. -/
inductive PC where
  | idle
  | endStoreCached (slow : Bool)
  | endLoadOwner (slow : Bool)
  | endCas (slow : Bool)
  | unpatchOwn
  | acqStoreCached
  | acqLoadOwner
  | acqCasAcquire
  | acqStoreAccessing
  | acqCasEvictor
  | acqClearRetry
  | acqBlockCached
  | acqBlockPatch
  | acqRecheckCpu
  | acqVictimCpu
  | acqClearAccessing
  | acqCasFinish
  | evLoadOwner
  | evStoreAccessing
  | evRecheckOwner
  | evBlockCached
  | evBlockPatch
  | evClearAccessing
deriving DecidableEq, Repr

/-- Per-thread state: program point, the thread's cached-cpu cell, the
thread-local `lastCpu`, the `accessing` cell of its ThreadControl, the local
variable `curOwnerAndEvictor` (split into its two fields), and the `shard`
argument of an in-flight `evictOwner`. -/
structure TState where
  pc : PC
  cachedCpu : Int
  lastCpu : Int
  accessing : Nat
  curOwner : Nat
  curEvictor : Nat
  evShard : Int
deriving DecidableEq, Repr

/-- Global state: the per-shard `ownerAndEvictor` words, all thread states,
and whether each thread's stub ops are currently patched (blocked). -/
structure GState where
  ownerAndEvictor : Int → OwnerAndEvictor
  ts : Nat → TState
  patched : Nat → Bool

/-- An external call entering the arbiter, or one internal atomic step.
`cont input` supplies the result of `sched_getcpu()` / `curCpu()` when the
program point consumes one; other program points ignore `input`. -/
inductive ActKind where
  | callBeginSlowPath
  | callEnd
  | callFenceWith (shard : Int)
  | cont (input : Int)
deriving DecidableEq, Repr

structure Act where
  tid : Nat
  kind : ActKind
deriving DecidableEq, Repr

/-- Observable effect of a transition: a store to some thread's cached-cpu
cell, a store to some thread's stub code bytes (patch or unpatch), or
`acquireCpuOwnership` returning shard `v`. -/
inductive Label where
  | tau
  | writeCached (target : Nat) (v : Int)
  | patchStub (victim : Nat) (shard : Int)
  | unpatchStub (owner : Nat)
  | ret (tid : Nat) (v : Int)
deriving DecidableEq, Repr

def initTState : TState :=
  { pc := PC.idle, cachedCpu := -1, lastCpu := 0, accessing := 0,
    curOwner := 0, curEvictor := 0, evShard := 0 }

/-- Process start: every shard unowned, every thread idle with cached-cpu
cell -1 (the initializer of `rseq_thread_cached_cpu`), no stub patched. -/
def initState : GState :=
  { ownerAndEvictor := fun _ => ⟨0, 0⟩, ts := fun _ => initTState,
    patched := fun _ => false }

/-- One transition of the arbiter, following Rseq.cpp line by line.
`sched_getcpu()` and the matching cached-cpu store at the top of the
`acquireCpuOwnership` loop are merged into one transition (`acqStoreCached`)
because `lastCpu` is thread-local and invisible to other threads. A
compare-and-set is modelled by comparing the shard word against the
thread's loaded `curOwnerAndEvictor` copy and updating it on success. -/
def step (g : GState) (a : Act) : GState × Label :=
  let t := g.ts a.tid
  match t.pc, a.kind with
  | PC.idle, ActKind.callBeginSlowPath =>
      ({ g with ts := upd g.ts a.tid { t with pc := PC.endStoreCached true } },
        Label.tau)
  | PC.idle, ActKind.callEnd =>
      ({ g with ts := upd g.ts a.tid { t with pc := PC.endStoreCached false } },
        Label.tau)
  | PC.idle, ActKind.callFenceWith shard =>
      let t2 := { t with pc := PC.evLoadOwner, evShard := shard }
      ({ g with ts := upd g.ts a.tid t2 }, Label.tau)
  | PC.endStoreCached slow, ActKind.cont _ =>
      let t2 := { t with pc := PC.endLoadOwner slow, cachedCpu := (-1 : Int) }
      ({ g with ts := upd g.ts a.tid t2 }, Label.writeCached a.tid (-1))
  | PC.endLoadOwner slow, ActKind.cont _ =>
      let cur := g.ownerAndEvictor t.lastCpu
      if cur.ownerId ≠ a.tid then
        let t2 := { t with
          pc := (if slow then PC.unpatchOwn else PC.idle),
          curOwner := cur.ownerId, curEvictor := cur.evictorId }
        ({ g with ts := upd g.ts a.tid t2 }, Label.tau)
      else
        let t2 := { t with
          pc := PC.endCas slow,
          curOwner := cur.ownerId, curEvictor := cur.evictorId }
        ({ g with ts := upd g.ts a.tid t2 }, Label.tau)
  | PC.endCas slow, ActKind.cont _ =>
      if g.ownerAndEvictor t.lastCpu = ⟨t.curOwner, t.curEvictor⟩ then
        let t2 := { t with pc := (if slow then PC.unpatchOwn else PC.idle) }
        ({ g with
            ownerAndEvictor := upd g.ownerAndEvictor t.lastCpu ⟨0, 0⟩,
            ts := upd g.ts a.tid t2 }, Label.tau)
      else
        ({ g with ts := upd g.ts a.tid { t with pc := PC.endLoadOwner slow } },
          Label.tau)
  | PC.unpatchOwn, ActKind.cont _ =>
      ({ g with
          patched := upd g.patched a.tid false,
          ts := upd g.ts a.tid { t with pc := PC.acqStoreCached } },
        Label.unpatchStub a.tid)
  | PC.acqStoreCached, ActKind.cont c =>
      let t2 := { t with pc := PC.acqLoadOwner, lastCpu := c, cachedCpu := c }
      ({ g with ts := upd g.ts a.tid t2 }, Label.writeCached a.tid c)
  | PC.acqLoadOwner, ActKind.cont _ =>
      let cur := g.ownerAndEvictor t.lastCpu
      let t2 := { t with
        pc := (if cur.ownerId = 0 then PC.acqCasAcquire
               else PC.acqStoreAccessing),
        curOwner := cur.ownerId, curEvictor := cur.evictorId }
      ({ g with ts := upd g.ts a.tid t2 }, Label.tau)
  | PC.acqCasAcquire, ActKind.cont _ =>
      if g.ownerAndEvictor t.lastCpu = ⟨t.curOwner, t.curEvictor⟩ then
        ({ g with
            ownerAndEvictor := upd g.ownerAndEvictor t.lastCpu ⟨a.tid, 0⟩,
            ts := upd g.ts a.tid { t with pc := PC.idle } },
          Label.ret a.tid t.lastCpu)
      else
        ({ g with ts := upd g.ts a.tid { t with pc := PC.acqStoreCached } },
          Label.tau)
  | PC.acqStoreAccessing, ActKind.cont _ =>
      let t2 := { t with pc := PC.acqCasEvictor, accessing := t.curOwner }
      ({ g with ts := upd g.ts a.tid t2 }, Label.tau)
  | PC.acqCasEvictor, ActKind.cont _ =>
      if g.ownerAndEvictor t.lastCpu = ⟨t.curOwner, t.curEvictor⟩ then
        let t2 := { t with pc := PC.acqBlockCached, curEvictor := a.tid }
        ({ g with
            ownerAndEvictor :=
              upd g.ownerAndEvictor t.lastCpu ⟨t.curOwner, a.tid⟩,
            ts := upd g.ts a.tid t2 }, Label.tau)
      else
        ({ g with ts := upd g.ts a.tid { t with pc := PC.acqClearRetry } },
          Label.tau)
  | PC.acqClearRetry, ActKind.cont _ =>
      let t2 := { t with pc := PC.acqStoreCached, accessing := 0 }
      ({ g with ts := upd g.ts a.tid t2 }, Label.tau)
  | PC.acqBlockCached, ActKind.cont _ =>
      let ts1 := upd g.ts t.curOwner
        { g.ts t.curOwner with cachedCpu := (-1 : Int) }
      ({ g with ts := upd ts1 a.tid { ts1 a.tid with pc := PC.acqBlockPatch } },
        Label.writeCached t.curOwner (-1))
  | PC.acqBlockPatch, ActKind.cont _ =>
      ({ g with
          patched := upd g.patched t.curOwner true,
          ts := upd g.ts a.tid { t with pc := PC.acqRecheckCpu } },
        Label.patchStub t.curOwner t.lastCpu)
  | PC.acqRecheckCpu, ActKind.cont c =>
      if t.lastCpu ≠ c then
        ({ g with ts := upd g.ts a.tid { t with pc := PC.acqClearRetry } },
          Label.tau)
      else
        ({ g with ts := upd g.ts a.tid { t with pc := PC.acqVictimCpu } },
          Label.tau)
  | PC.acqVictimCpu, ActKind.cont _ =>
      ({ g with ts := upd g.ts a.tid { t with pc := PC.acqClearAccessing } },
        Label.tau)
  | PC.acqClearAccessing, ActKind.cont _ =>
      let t2 := { t with pc := PC.acqCasFinish, accessing := 0 }
      ({ g with ts := upd g.ts a.tid t2 }, Label.tau)
  | PC.acqCasFinish, ActKind.cont _ =>
      if g.ownerAndEvictor t.lastCpu = ⟨t.curOwner, t.curEvictor⟩ then
        ({ g with
            ownerAndEvictor := upd g.ownerAndEvictor t.lastCpu ⟨a.tid, 0⟩,
            ts := upd g.ts a.tid { t with pc := PC.idle } },
          Label.ret a.tid t.lastCpu)
      else
        ({ g with ts := upd g.ts a.tid { t with pc := PC.acqStoreCached } },
          Label.tau)
  | PC.evLoadOwner, ActKind.cont _ =>
      let cur := g.ownerAndEvictor t.evShard
      if cur.ownerId = 0 then
        ({ g with ts := upd g.ts a.tid { t with pc := PC.idle } }, Label.tau)
      else
        let t2 := { t with
          pc := PC.evStoreAccessing,
          curOwner := cur.ownerId, curEvictor := cur.evictorId }
        ({ g with ts := upd g.ts a.tid t2 }, Label.tau)
  | PC.evStoreAccessing, ActKind.cont _ =>
      let t2 := { t with pc := PC.evRecheckOwner, accessing := t.curOwner }
      ({ g with ts := upd g.ts a.tid t2 }, Label.tau)
  | PC.evRecheckOwner, ActKind.cont _ =>
      if (g.ownerAndEvictor t.evShard).ownerId ≠ t.curOwner then
        ({ g with ts := upd g.ts a.tid { t with pc := PC.evClearAccessing } },
          Label.tau)
      else
        ({ g with ts := upd g.ts a.tid { t with pc := PC.evBlockCached } },
          Label.tau)
  | PC.evBlockCached, ActKind.cont _ =>
      let ts1 := upd g.ts t.curOwner
        { g.ts t.curOwner with cachedCpu := (-1 : Int) }
      ({ g with ts := upd ts1 a.tid { ts1 a.tid with pc := PC.evBlockPatch } },
        Label.writeCached t.curOwner (-1))
  | PC.evBlockPatch, ActKind.cont _ =>
      ({ g with
          patched := upd g.patched t.curOwner true,
          ts := upd g.ts a.tid { t with pc := PC.evClearAccessing } },
        Label.patchStub t.curOwner t.evShard)
  | PC.evClearAccessing, ActKind.cont _ =>
      let t2 := { t with pc := PC.idle, accessing := 0 }
      ({ g with ts := upd g.ts a.tid t2 }, Label.tau)
  | _, _ => (g, Label.tau)

/-- Run a trace of actions from a state (left fold of `step`). -/
def runFrom (g : GState) (acts : List Act) : GState :=
  acts.foldl (fun h a => (step h a).1) g

/-- Run a trace of actions from the initial state. -/
def run (acts : List Act) : GState := runFrom initState acts

/-- The label emitted by performing `a` in state `g`. -/
def stepLabel (g : GState) (a : Act) : Label := (step g a).2

/-! ## Public begin fast path (src/rseq/Rseq.h)

`rseq::begin()` reads the thread's cached-cpu cell; a negative value sends it
to `beginSlowPath()` (modelled by the transition system above), a
non-negative value is returned directly. -/

/-- `rseq::begin`: the pair of the returned shard and whether the slow path
was invoked. `slowPathResult` stands for the value `beginSlowPath()` would
return when taken. -/
def rseqBegin (cachedCpu : Int) (slowPathResult : Int) : Int × Bool :=
  if cachedCpu < 0 then (slowPathResult, true) else (cachedCpu, false)

/-- Traces whose `cont` inputs — the results of the OS current-cpu queries
`sched_getcpu()` / `ThreadControl::curCpu()` — all lie in [0, C). -/
def validActs (C : Nat) (acts : List Act) : Prop :=
  ∀ a ∈ acts, ∀ c : Int, a.kind = ActKind.cont c → 0 ≤ c ∧ c < (C : Int)

/-! ## Sequential semantics of end() (src/rseq/internal/Rseq.cpp)

For the idempotence claim, `end()` is run by one thread with no interleaving,
so it is embedded a second time as a plain state function. The state carries
exactly what `end()` touches: the cached-cpu cell, the thread-local
`lastCpu`, the shard words, and `me->id()`. Run sequentially, the
compare-and-set always succeeds (nothing intervenes between the load and the
cas), so the retry branch of the loop is unreachable and fuel 1 suffices. -/

structure EndState where
  cachedCpu : Int
  lastCpu : Int
  ownerAndEvictor : Int → OwnerAndEvictor
  myId : Nat

/-- The loop of `end()`: load the shard word; if the owner is not `me`,
break; else cas it to `{0, 0}`, retrying on failure. -/
def endLoop (s : EndState) : Nat → EndState
  | 0 => s
  | fuel + 1 =>
    let cur := s.ownerAndEvictor s.lastCpu
    if cur.ownerId ≠ s.myId then s
    else if s.ownerAndEvictor s.lastCpu = cur then
      { s with ownerAndEvictor := upd s.ownerAndEvictor s.lastCpu ⟨0, 0⟩ }
    else endLoop s fuel

/-- `end()`: store -1 to the cached-cpu cell, then run the release loop. -/
def endFn (s : EndState) : EndState :=
  endLoop { s with cachedCpu := -1 } 1

/-! ## Id allocator (src/rseq/internal/IdAllocator.h)

The backing array of `FreeNodeOrItem` unions is a map from index to cell; a
cell holds whichever union member was written last (`next` by `free`, `owner`
by `allocate`), or is uninitialized. Reading `.next` from a cell whose last
write was `.owner` (or which was never written) would reinterpret foreign
bytes; the allocator never does it, and the model returns 0 there. The owner
pointer is abstracted as a `Nat`. -/

inductive ItemCell where
  | uninit
  | next (n : Nat)
  | owner (o : Nat)
deriving DecidableEq, Repr

/-- The union read `items_[i].next`. -/
def nextOf : ItemCell → Nat
  | ItemCell.next n => n
  | _ => 0

structure IdAllocator where
  freeListHead : Nat
  firstUntouchedId : Nat
  maxElements : Nat
  items : Nat → ItemCell

/-- The constructor `IdAllocator(maxElements)`: empty free list, id 0
reserved as null, high-water mark at 1, array fresh from `os_mem::allocate`. -/
def IdAllocator.mk0 (maxElements : Nat) : IdAllocator :=
  { freeListHead := 0, firstUntouchedId := 1, maxElements := maxElements,
    items := fun _ => ItemCell.uninit }

/-- `IdAllocator::allocate`: pop the free list if non-empty, else bump the
high-water mark; write the owner into the slot. Returns the id, the new
state, and the backing-array indices accessed (`items_[freeListHead_]` read
and `items_[result]` write coincide when popping). -/
def IdAllocator.allocate (s : IdAllocator) (o : Nat) :
    Nat × IdAllocator × List Nat :=
  if s.freeListHead ≠ 0 then
    let result := s.freeListHead
    (result,
      { s with
        freeListHead := nextOf (s.items result),
        items := upd s.items result (ItemCell.owner o) },
      [result])
  else
    let result := s.firstUntouchedId
    (result,
      { s with
        firstUntouchedId := result + 1,
        items := upd s.items result (ItemCell.owner o) },
      [result])

/-- `IdAllocator::free`: push the id onto the free list. Returns the new
state and the indices accessed. -/
def IdAllocator.freeId (s : IdAllocator) (id : Nat) : IdAllocator × List Nat :=
  ({ s with
      freeListHead := id,
      items := upd s.items id (ItemCell.next s.freeListHead) },
    [id])

/-- `IdAllocator::lookupOwner`: read the slot (lock-free). -/
def IdAllocator.lookupOwner (s : IdAllocator) (id : Nat) : ItemCell :=
  s.items id

/-- A client call sequence: each element allocates (with an owner value) or
frees an id. -/
inductive AllocOp where
  | alloc (o : Nat)
  | free (id : Nat)
deriving DecidableEq, Repr

/-- The allocator together with ghost bookkeeping: the ids currently
allocated (`live`) and the ids on the free list, most recently freed first
(`freeNodes`). The ghost lists track the client-visible history; the
allocator state is the authoritative embedding. -/
structure AllocModel where
  alloc : IdAllocator
  live : List Nat
  freeNodes : List Nat

def initAllocModel (maxElements : Nat) : AllocModel :=
  { alloc := IdAllocator.mk0 maxElements, live := [], freeNodes := [] }

def ghostStep (m : AllocModel) (op : AllocOp) : AllocModel :=
  match op with
  | AllocOp.alloc o =>
      let r := (m.alloc.allocate o).1
      { alloc := (m.alloc.allocate o).2.1,
        live := r :: m.live,
        freeNodes := if m.alloc.freeListHead ≠ 0 then m.freeNodes.tail
                     else m.freeNodes }
  | AllocOp.free id =>
      { alloc := (m.alloc.freeId id).1,
        live := m.live.erase id,
        freeNodes := id :: m.freeNodes }

def runTrace (m : AllocModel) : List AllocOp → AllocModel
  | [] => m
  | op :: rest => runTrace (ghostStep m op) rest

/-- The ids returned by the allocates of a trace, in order. -/
def traceResults (m : AllocModel) : List AllocOp → List Nat
  | [] => []
  | AllocOp.alloc o :: rest =>
      (m.alloc.allocate o).1 :: traceResults (ghostStep m (AllocOp.alloc o)) rest
  | AllocOp.free id :: rest => traceResults (ghostStep m (AllocOp.free id)) rest

/-- All backing-array indices accessed by the allocates and frees of a
trace. -/
def traceAccesses (m : AllocModel) : List AllocOp → List Nat
  | [] => []
  | AllocOp.alloc o :: rest =>
      (m.alloc.allocate o).2.2 ++
        traceAccesses (ghostStep m (AllocOp.alloc o)) rest
  | AllocOp.free id :: rest =>
      (m.alloc.freeId id).2 ++ traceAccesses (ghostStep m (AllocOp.free id)) rest

/-- Client discipline: every free targets a currently-live id. -/
def freesValid (m : AllocModel) : List AllocOp → Bool
  | [] => true
  | AllocOp.alloc o :: rest => freesValid (ghostStep m (AllocOp.alloc o)) rest
  | AllocOp.free id :: rest =>
      m.live.contains id && freesValid (ghostStep m (AllocOp.free id)) rest

/-- Client discipline plus the liveness bound of the claim: every free
targets a live id, and at every point at most `M - 1` ids are live
simultaneously. -/
def traceOK (M : Nat) (m : AllocModel) : List AllocOp → Bool
  | [] => true
  | AllocOp.alloc o :: rest =>
      (m.live.length + 2 ≤ M) && traceOK M (ghostStep m (AllocOp.alloc o)) rest
  | AllocOp.free id :: rest =>
      m.live.contains id && traceOK M (ghostStep m (AllocOp.free id)) rest

/-- The free list structure held in the union array: `head` chains through
`.next` cells along exactly the ghost list `nodes`, ending at null (0). -/
def chainOK (items : Nat → ItemCell) : Nat → List Nat → Prop
  | h, [] => h = 0
  | h, x :: rest =>
      h = x ∧ x ≠ 0 ∧ items x = ItemCell.next (rest.headD 0) ∧
        chainOK items (rest.headD 0) rest

/-- Every id ever allocated so far (live or on the free list). -/
def everAllocated (m : AllocModel) : List Nat := m.live ++ m.freeNodes

/-- Claim C7 as stated: every allocate returns the smallest id never yet
allocated. -/
def allocReturnsSmallestEverUnallocated : Prop :=
  ∀ (ops : List AllocOp) (o : Nat),
    freesValid (initAllocModel 100) ops = true →
    let m := runTrace (initAllocModel 100) ops
    let r := (m.alloc.allocate o).1
    1 ≤ r ∧ r ∉ everAllocated m ∧
      ∀ j, 1 ≤ j → j ∉ everAllocated m → r ≤ j

/-! ## Typed Value wrapper (src/rseq/Rseq.h)

A value of a trivially-copyable `T` with `sizeof(T) = n ≤ 8` is its byte
representation, a list of `n` bytes. `toRepr` memcpys them into a
zero-initialized 8-byte `unsigned long` (little-endian, unused high bytes
zero); `fromRepr` memcpys the first `n` bytes back out. -/

/-- `Value<T>::toRepr`: `unsigned long result = 0; memcpy(&result, &t,
sizeof(T));`. -/
def toRepr (t : List Nat) : Nat := leBytes t

/-- `Value<T>::fromRepr`: `T result; memcpy(&result, &repr, sizeof(T));` —
the first `size` little-endian bytes of the word. -/
def fromRepr (size : Nat) (r : Nat) : List Nat :=
  match size with
  | 0 => []
  | n + 1 => r % 256 :: fromRepr n (r / 256)

/-- The `std::atomic<unsigned long> repr_` member of `Value<T>`. -/
structure Value where
  repr_ : Nat

/-- `Value<T>::store`: `repr_.store(toRepr(val), order)`. -/
def Value.store (v : Value) (val : List Nat) : Value :=
  { v with repr_ := toRepr val }

/-- `Value<T>::load`: `fromRepr(repr_.load(order))`. -/
def Value.load (size : Nat) (v : Value) : List Nat :=
  fromRepr size v.repr_

/-! ## tryParseCpu (src/rseq/internal/ThreadControl.cpp)

The /proc stat buffer is a byte list; `length` is the signed `ssize_t` from
`read()`. Loops over positions become fuel recursion on the remaining
length. Character codes: 41 is the right parenthesis, 32 the space, 48..57
the digits. -/

/-- The first scan of `tryParseCpu`: the index of the last right parenthesis
in the first `L` bytes, or -1 if there is none. -/
def lastRParenIndex (buf : List Nat) (L : Nat) : Int :=
  (List.range L).foldl
    (fun acc i => if buf.getD i 0 = 41 then (i : Int) else acc) (-1)

/-- The second loop: advance `pos` until 38 spaces have been passed or `pos`
reaches the end; `fuel` is the remaining length `L - pos`. -/
def skipSpacesLoop (buf : List Nat) : Nat → Nat → Nat → Nat
  | 0, pos, _ => pos
  | fuel + 1, pos, numSpacesEncountered =>
      if numSpacesEncountered < 38 then
        skipSpacesLoop buf fuel (pos + 1)
          (if buf.getD pos 0 = 32 then numSpacesEncountered + 1
           else numSpacesEncountered)
      else pos

/-- A 32-bit bit pattern read back as the value of a signed `int`
(two's complement). -/
def toSigned32 (v : Nat) : Int :=
  if v < 2147483648 then (v : Int) else (v : Int) - 4294967296

/-- The third loop: accumulate decimal digits into the 32-bit `int cpu`
(`cpu *= 10; cpu += charAtPos - '0'` — each step wraps modulo 2^32, the
x86-64 two's-complement behaviour of the source's `int`); a space returns
the accumulated bit pattern read as a signed int, any other non-digit
returns -1, and running off the end (fuel 0, i.e. `pos = length`)
returns -1. -/
def parseDigitsLoop (buf : List Nat) : Nat → Nat → Nat → Int
  | 0, _, _ => -1
  | fuel + 1, pos, cpu =>
      let charAtPos := buf.getD pos 0
      if charAtPos = 32 then toSigned32 cpu
      else if 48 ≤ charAtPos ∧ charAtPos ≤ 57 then
        parseDigitsLoop buf fuel (pos + 1)
          ((cpu * 10 % 4294967296 + (charAtPos - 48)) % 4294967296)
      else -1

/-- `tryParseCpu(procFileContents, length)`, line by line: reject negative
lengths, reject buffers without a right parenthesis, then skip 38 spaces and
parse the decimal field. -/
def tryParseCpu (buf : List Nat) (length : Int) : Int :=
  if length < 0 then -1
  else
    let L := length.toNat
    let indexOfLastRParen := lastRParenIndex buf L
    if indexOfLastRParen = -1 then -1
    else
      let pos := skipSpacesLoop buf L 0 0
      parseDigitsLoop buf (L - pos) pos 0

/-- The decimal value of a digit string (character codes). -/
def decimalValue (ds : List Nat) : Nat :=
  ds.foldl (fun a d => a * 10 + (d - 48)) 0

/-- The digit run folded through the 32-bit accumulator, wrapping each step
modulo 2^32 exactly as `parseDigitsLoop` does. -/
def decimalValue32 (ds : List Nat) : Nat :=
  ds.foldl (fun a d => (a * 10 % 4294967296 + (d - 48)) % 4294967296) 0

/-- Specification-level description of the CPU field as the original claim
words it: drop everything up to and including the 38th space, take the run
up to the next space; if a space terminates the run and the run is all
digits, its exact (unbounded) decimal value, else -1. Defined independently
of the last-parenthesis index. -/
def cpuFieldValueExact (buf : List Nat) (L : Nat) : Int :=
  let rest := (buf.take L).drop (skipSpacesLoop buf L 0 0)
  if rest.any (fun c => c == 32) then
    let ds := rest.takeWhile (fun c => c ≠ 32)
    if ds.all (fun c => decide (48 ≤ c ∧ c ≤ 57)) then (decimalValue ds : Int)
    else -1
  else -1

/-- Specification-level description of what the code computes: as
`cpuFieldValueExact`, but the digit run's value is reduced through the
32-bit accumulator and read back as a signed int. -/
def cpuFieldValue (buf : List Nat) (L : Nat) : Int :=
  let rest := (buf.take L).drop (skipSpacesLoop buf L 0 0)
  if rest.any (fun c => c == 32) then
    let ds := rest.takeWhile (fun c => c ≠ 32)
    if ds.all (fun c => decide (48 ≤ c ∧ c ≤ 57)) then
      toSigned32 (decimalValue32 ds)
    else -1
  else -1

/-- The allocator invariant tying the union array to the ghost lists: the
high-water mark is positive, the free list chains exactly through
`freeNodes`, no id is both live and free (or duplicated), and the ids
handed out so far are exactly 1 .. firstUntouchedId - 1. -/
def allocInv (m : AllocModel) : Prop :=
  1 ≤ m.alloc.firstUntouchedId ∧
  chainOK m.alloc.items m.alloc.freeListHead m.freeNodes ∧
  (m.live ++ m.freeNodes).Nodup ∧
  (∀ j : Nat, (1 ≤ j ∧ j < m.alloc.firstUntouchedId) ↔
    j ∈ m.live ++ m.freeNodes)

/-! ## Claims as stated (for the refuted ones) -/

/-- Invariant used for the stub-patching discipline: from the moment a
thread publishes a victim id in its `accessing` cell (before trying for the
evictor slot, or before re-checking ownership in `evictOwner`) until it
clears it, `accessing` holds the owner id it loaded (`curOwner`), which is
the id of the stub it may patch. -/
def accessingInv (t : TState) : Prop :=
  (t.pc = PC.acqCasEvictor ∨ t.pc = PC.acqBlockCached ∨
   t.pc = PC.acqBlockPatch ∨ t.pc = PC.acqRecheckCpu ∨
   t.pc = PC.acqVictimCpu ∨ t.pc = PC.evRecheckOwner ∨
   t.pc = PC.evBlockCached ∨ t.pc = PC.evBlockPatch) →
  t.accessing = t.curOwner

/-- Invariant for the slow-path return value: from the moment a thread
stores the freshly queried CPU into `lastCpu` at the top of the acquisition
loop until it returns or restarts the loop, `lastCpu` lies in [0, C). -/
def lastCpuInv (C : Nat) (t : TState) : Prop :=
  (t.pc = PC.acqLoadOwner ∨ t.pc = PC.acqCasAcquire ∨
   t.pc = PC.acqStoreAccessing ∨ t.pc = PC.acqCasEvictor ∨
   t.pc = PC.acqClearRetry ∨ t.pc = PC.acqBlockCached ∨
   t.pc = PC.acqBlockPatch ∨ t.pc = PC.acqRecheckCpu ∨
   t.pc = PC.acqVictimCpu ∨ t.pc = PC.acqClearAccessing ∨
   t.pc = PC.acqCasFinish) →
  0 ≤ t.lastCpu ∧ t.lastCpu < (C : Int)

/-- Claim C10 as stated (value clause): on every buffer that passes the
length and parenthesis checks, `tryParseCpu` returns the exact decimal
integer following the 38th space (or -1 on a malformed field). -/
def tryParseCpuReturnsExactDecimal : Prop :=
  ∀ (buf : List Nat) (len : Int), 0 ≤ len → len.toNat ≤ buf.length →
    (∃ i, i < len.toNat ∧ buf.getD i 0 = 41) →
    tryParseCpu buf len = cpuFieldValueExact buf len.toNat

/-- Claim C1 as stated: whenever a transition writes a non-negative value
`v` into a thread's cached-cpu cell, that thread is at that moment the owner
of shard `v`. -/
def writesNonnegOnlyWhenOwner : Prop :=
  ∀ (acts : List Act) (a : Act) (tgt : Nat) (v : Int),
    stepLabel (run acts) a = Label.writeCached tgt v → 0 ≤ v →
    ((run acts).ownerAndEvictor v).ownerId = tgt

/-- Claim C2 as stated: whenever a transition patches a stub during the
eviction of shard `shard`, the patching thread holds the evictor slot of
that shard's OwnerAndEvictor word. -/
def patchOnlyWithEvictorSlot : Prop :=
  ∀ (acts : List Act) (a : Act) (victim : Nat) (shard : Int),
    stepLabel (run acts) a = Label.patchStub victim shard →
    ((run acts).ownerAndEvictor shard).evictorId = a.tid

/-! ## Theorems -/

/-- Claim C3: invoking any rseq op on a blocked (patched) stub takes the
fail path: it writes -1 through the embedded address of the owning thread's
cached-cpu cell, returns the failure sentinel 1 (so the public load, store
and storeFence wrappers return false), stores nothing to the slot, and — for
load — stores nothing to `*dst`. -/
theorem blocked_stub_ops_fail (b0 b1 b2 b3 b4 b5 b6 b7 slotVal v w : Nat) :
    execLoad (blockRseqOps (initForId [b0, b1, b2, b3, b4, b5, b6, b7])) slotVal
      = some ⟨1, none, none,
          some (leBytes [b0, b1, b2, b3, b4, b5, b6, b7], -1)⟩ ∧
    execStore (blockRseqOps (initForId [b0, b1, b2, b3, b4, b5, b6, b7])) v
      = some ⟨1, none, none,
          some (leBytes [b0, b1, b2, b3, b4, b5, b6, b7], -1)⟩ ∧
    execStoreFence (blockRseqOps (initForId [b0, b1, b2, b3, b4, b5, b6, b7])) w
      = some ⟨1, none, none,
          some (leBytes [b0, b1, b2, b3, b4, b5, b6, b7], -1)⟩ ∧
    publicResult (execLoad
        (blockRseqOps (initForId [b0, b1, b2, b3, b4, b5, b6, b7])) slotVal)
      = some false ∧
    publicResult (execStore
        (blockRseqOps (initForId [b0, b1, b2, b3, b4, b5, b6, b7])) v)
      = some false ∧
    publicResult (execStoreFence
        (blockRseqOps (initForId [b0, b1, b2, b3, b4, b5, b6, b7])) w)
      = some false := by
  refine ⟨?_, ?_, ?_, ?_, ?_, ?_⟩ <;>
    simp [execLoad, execStore, execStoreFence, publicResult, jmpToFailAt,
      failTailIntact, cellAddr, leBytes, blockRseqOps, initForId, writeBytes,
      store16, upd, templateBytes, codeTemplate, kLoadOffset, kStoreOffset,
      kStoreFenceOffset, kReturnFailureOffset, kThreadCachedCpuOffset,
      kJmpInstructionSize, kJmpBytecode, kLoadReplacement, kStoreReplacement,
      kStoreFenceReplacement, kLoadToFailureJmpSize, kStoreToFailureJmpSize,
      kStoreFenceToFailureJmpSize]

/-- Claim C4: for a stub initialized from the code template (with any 8
pointer bytes), `blockRseqOps` followed by `unblockRseqOps` restores every
byte of the 54-byte region to its unpatched value, and neither operation
writes any byte outside the three 2-byte entry prefixes at offsets 0, 16
and 24. -/
theorem patch_unpatch_round_trip :
    (∀ (b0 b1 b2 b3 b4 b5 b6 b7 i : Nat),
      unblockRseqOps
          (blockRseqOps (initForId [b0, b1, b2, b3, b4, b5, b6, b7])) i
        = initForId [b0, b1, b2, b3, b4, b5, b6, b7] i) ∧
    (∀ (c : Nat → Nat) (i : Nat), i ≠ 0 → i ≠ 1 → i ≠ 16 → i ≠ 17 → i ≠ 24 →
      i ≠ 25 → blockRseqOps c i = c i ∧ unblockRseqOps c i = c i) := by
  constructor
  · intro b0 b1 b2 b3 b4 b5 b6 b7 i
    by_cases h0 : i = 0
    · subst h0
      simp [unblockRseqOps, blockRseqOps, initForId, writeBytes, store16, upd,
        templateBytes, codeTemplate, kLoadOffset, kStoreOffset,
        kStoreFenceOffset, kThreadCachedCpuOffset, kLoadBytes, kStoreBytes,
        kStoreFenceBytes, kLoadReplacement, kStoreReplacement,
        kStoreFenceReplacement, kLoadToFailureJmpSize, kStoreToFailureJmpSize,
        kStoreFenceToFailureJmpSize, kReturnFailureOffset,
        kJmpInstructionSize, kJmpBytecode]
    by_cases h1 : i = 1
    · subst h1
      simp [unblockRseqOps, blockRseqOps, initForId, writeBytes, store16, upd,
        templateBytes, codeTemplate, kLoadOffset, kStoreOffset,
        kStoreFenceOffset, kThreadCachedCpuOffset, kLoadBytes, kStoreBytes,
        kStoreFenceBytes, kLoadReplacement, kStoreReplacement,
        kStoreFenceReplacement, kLoadToFailureJmpSize, kStoreToFailureJmpSize,
        kStoreFenceToFailureJmpSize, kReturnFailureOffset,
        kJmpInstructionSize, kJmpBytecode]
    by_cases h16 : i = 16
    · subst h16
      simp [unblockRseqOps, blockRseqOps, initForId, writeBytes, store16, upd,
        templateBytes, codeTemplate, kLoadOffset, kStoreOffset,
        kStoreFenceOffset, kThreadCachedCpuOffset, kLoadBytes, kStoreBytes,
        kStoreFenceBytes, kLoadReplacement, kStoreReplacement,
        kStoreFenceReplacement, kLoadToFailureJmpSize, kStoreToFailureJmpSize,
        kStoreFenceToFailureJmpSize, kReturnFailureOffset,
        kJmpInstructionSize, kJmpBytecode]
    by_cases h17 : i = 17
    · subst h17
      simp [unblockRseqOps, blockRseqOps, initForId, writeBytes, store16, upd,
        templateBytes, codeTemplate, kLoadOffset, kStoreOffset,
        kStoreFenceOffset, kThreadCachedCpuOffset, kLoadBytes, kStoreBytes,
        kStoreFenceBytes, kLoadReplacement, kStoreReplacement,
        kStoreFenceReplacement, kLoadToFailureJmpSize, kStoreToFailureJmpSize,
        kStoreFenceToFailureJmpSize, kReturnFailureOffset,
        kJmpInstructionSize, kJmpBytecode]
    by_cases h24 : i = 24
    · subst h24
      simp [unblockRseqOps, blockRseqOps, initForId, writeBytes, store16, upd,
        templateBytes, codeTemplate, kLoadOffset, kStoreOffset,
        kStoreFenceOffset, kThreadCachedCpuOffset, kLoadBytes, kStoreBytes,
        kStoreFenceBytes, kLoadReplacement, kStoreReplacement,
        kStoreFenceReplacement, kLoadToFailureJmpSize, kStoreToFailureJmpSize,
        kStoreFenceToFailureJmpSize, kReturnFailureOffset,
        kJmpInstructionSize, kJmpBytecode]
    by_cases h25 : i = 25
    · subst h25
      simp [unblockRseqOps, blockRseqOps, initForId, writeBytes, store16, upd,
        templateBytes, codeTemplate, kLoadOffset, kStoreOffset,
        kStoreFenceOffset, kThreadCachedCpuOffset, kLoadBytes, kStoreBytes,
        kStoreFenceBytes, kLoadReplacement, kStoreReplacement,
        kStoreFenceReplacement, kLoadToFailureJmpSize, kStoreToFailureJmpSize,
        kStoreFenceToFailureJmpSize, kReturnFailureOffset,
        kJmpInstructionSize, kJmpBytecode]
    simp [unblockRseqOps, blockRseqOps, store16, upd, kLoadOffset,
      kStoreOffset, kStoreFenceOffset, h0, h1, h16, h17, h24, h25]
  · intro c i h0 h1 h16 h17 h24 h25
    constructor <;>
      simp [unblockRseqOps, blockRseqOps, store16, upd, kLoadOffset,
        kStoreOffset, kStoreFenceOffset, h0, h1, h16, h17, h24, h25]

/-- Witness for C4: the round trip and the untouched-byte property evaluated
at a concrete stub byte (offset 5, pointer bytes all zero). -/
theorem patch_unpatch_round_trip_witness :
    unblockRseqOps (blockRseqOps (initForId [0, 0, 0, 0, 0, 0, 0, 0])) 5
        = initForId [0, 0, 0, 0, 0, 0, 0, 0] 5 ∧
      blockRseqOps (initForId [0, 0, 0, 0, 0, 0, 0, 0]) 5
        = initForId [0, 0, 0, 0, 0, 0, 0, 0] 5 :=
  ⟨patch_unpatch_round_trip.1 0 0 0 0 0 0 0 0 5,
    (patch_unpatch_round_trip.2 (initForId [0, 0, 0, 0, 0, 0, 0, 0]) 5
      (by decide) (by decide) (by decide) (by decide) (by decide)
      (by decide)).1⟩

/-- Round trip of the byte representation through the 8-byte word: memcpy in
(`toRepr`) then memcpy out (`fromRepr`) is the identity on byte lists. -/
theorem fromRepr_toRepr (bs : List Nat) (h : ∀ b ∈ bs, b < 256) :
    fromRepr bs.length (toRepr bs) = bs := by
  induction bs with
  | nil => simp [fromRepr, toRepr, leBytes]
  | cons b rest ih =>
      have hb : b < 256 := h b (List.mem_cons_self b rest)
      have hrest : ∀ x ∈ rest, x < 256 := fun x hx => h x (List.mem_cons_of_mem b hx)
      simp [fromRepr, toRepr, leBytes] at ih ⊢
      constructor
      · omega
      · have : (b + 256 * leBytes rest) / 256 = leBytes rest := by omega
        rw [this]
        exact ih hrest

/-- The 8-byte word holds the bytes with the unused high bytes zero: the
represented value is below 256^sizeof. -/
theorem toRepr_lt (bs : List Nat) (h : ∀ b ∈ bs, b < 256) :
    toRepr bs < 256 ^ bs.length := by
  induction bs with
  | nil => simp [toRepr, leBytes]
  | cons b rest ih =>
      have hb : b < 256 := h b (List.mem_cons_self b rest)
      have hrest : ∀ x ∈ rest, x < 256 := fun x hx => h x (List.mem_cons_of_mem b hx)
      have := ih hrest
      simp [toRepr, leBytes] at this ⊢
      calc b + 256 * leBytes rest < 256 + 256 * leBytes rest := by omega
        _ ≤ 256 * 256 ^ rest.length := by omega
        _ = 256 ^ (rest.length + 1) := by ring

/-- Claim C8: for every trivially-copyable value of at most 8 bytes,
`v.store(x)` followed by `v.load()` returns `x`; the conversion zeroes the
unused high bytes of the 8-byte representation. -/
theorem value_round_trip (v : Value) (bs : List Nat) (hlen : bs.length ≤ 8)
    (hbytes : ∀ b ∈ bs, b < 256) :
    Value.load bs.length (Value.store v bs) = bs ∧ toRepr bs < 2 ^ 64 := by
  constructor
  · simp [Value.load, Value.store]
    exact fromRepr_toRepr bs hbytes
  · have h1 := toRepr_lt bs hbytes
    have h2 : (256 : Nat) ^ bs.length ≤ 256 ^ 8 :=
      Nat.pow_le_pow_right (by omega) hlen
    have : (256 : Nat) ^ 8 = 2 ^ 64 := by norm_num
    omega

/-- Witness for C8 at the concrete 2-byte value [7, 3]. -/
theorem value_round_trip_witness :
    Value.load 2 (Value.store ⟨0⟩ [7, 3]) = [7, 3] ∧ toRepr [7, 3] < 2 ^ 64 :=
  value_round_trip ⟨0⟩ [7, 3] (by decide) (by decide)

/-- Reading back the updated cell gives the stored value. -/
theorem upd_self {α : Type} [DecidableEq α] {β : Type} (f : α → β) (a : α)
    (b : β) : upd f a b a = b := by
  simp [upd]

/-- Updating a cell twice with the same value equals updating it once. -/
theorem upd_upd_same {α : Type} [DecidableEq α] {β : Type} (f : α → β)
    (a : α) (b : β) : upd (upd f a b) a b = upd f a b := by
  funext x
  by_cases hx : x = a <;> simp [upd, hx]

/-- Claim C6: `end()` is idempotent — from any state, the first call writes
-1 to the cached-cpu cell and releases the shard word (CAS to {0, 0}) if the
calling thread owns it, and a second consecutive call changes nothing. -/
theorem end_idempotent (s : EndState) :
    endFn (endFn s) = endFn s ∧
    (endFn s).cachedCpu = -1 ∧
    ((s.ownerAndEvictor s.lastCpu).ownerId = s.myId →
      (endFn s).ownerAndEvictor = upd s.ownerAndEvictor s.lastCpu ⟨0, 0⟩) ∧
    ((s.ownerAndEvictor s.lastCpu).ownerId ≠ s.myId →
      (endFn s).ownerAndEvictor = s.ownerAndEvictor) := by
  obtain ⟨cached, lastCpu, oe, myId⟩ := s
  by_cases h : (oe lastCpu).ownerId = myId
  · have e1 : endFn ⟨cached, lastCpu, oe, myId⟩
        = ⟨-1, lastCpu, upd oe lastCpu ⟨0, 0⟩, myId⟩ := by
      simp [endFn, endLoop, h]
    by_cases h0 : myId = 0
    · have e2 : endFn ⟨-1, lastCpu, upd oe lastCpu ⟨0, 0⟩, myId⟩
          = ⟨-1, lastCpu, upd (upd oe lastCpu ⟨0, 0⟩) lastCpu ⟨0, 0⟩,
              myId⟩ := by
        subst h0
        simp [endFn, endLoop, upd_self]
      refine ⟨?_, by rw [e1], by intro _; rw [e1], fun hno => absurd h hno⟩
      rw [e1, e2, upd_upd_same]
    · have e2 : endFn ⟨-1, lastCpu, upd oe lastCpu ⟨0, 0⟩, myId⟩
          = ⟨-1, lastCpu, upd oe lastCpu ⟨0, 0⟩, myId⟩ := by
        have : (upd oe lastCpu ⟨0, 0⟩ lastCpu).ownerId ≠ myId := by
          rw [upd_self]
          simpa using fun hc => h0 hc.symm
        simp [endFn, endLoop, this]
      exact ⟨by rw [e1, e2], by rw [e1], by intro _; rw [e1],
        fun hno => absurd h hno⟩
  · have e1 : endFn ⟨cached, lastCpu, oe, myId⟩
        = ⟨-1, lastCpu, oe, myId⟩ := by
      simp [endFn, endLoop, h]
    have e2 : endFn ⟨(-1 : Int), lastCpu, oe, myId⟩
        = ⟨-1, lastCpu, oe, myId⟩ := by
      simp [endFn, endLoop, h]
    exact ⟨by rw [e1, e2], by rw [e1], fun hyes => absurd hyes h,
      by intro _; rw [e1]⟩

/-- Witness for C6 at a concrete state where the calling thread (id 7) owns
its last shard: both calls coincide and the first releases the shard. -/
theorem end_idempotent_witness :
    endFn (endFn ⟨3, 0, fun _ => ⟨7, 0⟩, 7⟩) = endFn ⟨3, 0, fun _ => ⟨7, 0⟩, 7⟩ ∧
      (endFn ⟨3, 0, fun _ => ⟨7, 0⟩, 7⟩).ownerAndEvictor
        = upd (fun _ => ⟨7, 0⟩) 0 ⟨0, 0⟩ :=
  ⟨(end_idempotent ⟨3, 0, fun _ => ⟨7, 0⟩, 7⟩).1,
    (end_idempotent ⟨3, 0, fun _ => ⟨7, 0⟩, 7⟩).2.2.1 rfl⟩

/-- The last-parenthesis fold leaves the accumulator untouched when no
scanned byte is a right parenthesis. -/
theorem rparen_foldl_const (buf : List Nat) (l : List Nat) (acc : Int)
    (h : ∀ i ∈ l, buf.getD i 0 ≠ 41) :
    l.foldl (fun a i => if buf.getD i 0 = 41 then (i : Int) else a) acc
      = acc := by
  induction l generalizing acc with
  | nil => rfl
  | cons x rest ih =>
      have hx : buf.getD x 0 ≠ 41 := h x (List.mem_cons_self x rest)
      simp only [List.foldl_cons, if_neg hx]
      exact ih acc (fun i hi => h i (List.mem_cons_of_mem x hi))

/-- The last-parenthesis fold never drops below a non-negative
accumulator. -/
theorem rparen_foldl_nonneg (buf : List Nat) (l : List Nat) (acc : Int)
    (h : 0 ≤ acc) :
    0 ≤ l.foldl (fun a i => if buf.getD i 0 = 41 then (i : Int) else a) acc := by
  induction l generalizing acc with
  | nil => exact h
  | cons x rest ih =>
      simp only [List.foldl_cons]
      by_cases hx : buf.getD x 0 = 41
      · simp only [if_pos hx]
        exact ih _ (Int.ofNat_nonneg x)
      · simp only [if_neg hx]
        exact ih _ h

/-- The last-parenthesis fold returns a non-negative index when some scanned
byte is a right parenthesis. -/
theorem rparen_foldl_hit (buf : List Nat) (l : List Nat) (acc : Int)
    (h : ∃ i ∈ l, buf.getD i 0 = 41) :
    0 ≤ l.foldl (fun a i => if buf.getD i 0 = 41 then (i : Int) else a) acc := by
  induction l generalizing acc with
  | nil => simp at h
  | cons x rest ih =>
      simp only [List.foldl_cons]
      by_cases hx : buf.getD x 0 = 41
      · simp only [if_pos hx]
        exact rparen_foldl_nonneg buf rest _ (Int.ofNat_nonneg x)
      · simp only [if_neg hx]
        rcases h with ⟨i, hi, hval⟩
        rcases List.mem_cons.mp hi with rfl | hmem
        · exact absurd hval hx
        · exact ih _ ⟨i, hmem, hval⟩

/-- The digit-parsing loop started at `pos` computes the takeWhile/all
description of the field: the digit run folded through the wrapping 32-bit
accumulator and read as a signed int if a space terminates it, -1 on a
foreign character or if the buffer ends first. -/
theorem parse_digits_spec (buf : List Nat) (L : Nat) (hL : L ≤ buf.length) :
    ∀ (fuel pos acc : Nat), fuel = L - pos → pos ≤ L →
    parseDigitsLoop buf fuel pos acc =
      (let rest := (buf.take L).drop pos
       if rest.any (fun c => c == 32) then
         (let ds := rest.takeWhile (fun c => c ≠ 32)
          if ds.all (fun c => decide (48 ≤ c ∧ c ≤ 57)) then
            toSigned32 (ds.foldl
              (fun a d => (a * 10 % 4294967296 + (d - 48)) % 4294967296) acc)
          else -1)
       else -1) := by
  intro fuel
  induction fuel with
  | zero =>
      intro pos acc hf hpos
      have hge : L ≤ pos := by omega
      have hrest : (buf.take L).drop pos = [] := by
        apply List.drop_eq_nil_of_le
        simp [List.length_take]
        omega
      simp [parseDigitsLoop, hrest]
  | succ f ih =>
      intro pos acc hf hpos
      have hlt : pos < L := by omega
      have hlen : pos < (buf.take L).length := by
        simp [List.length_take]; omega
      have hdrop2 : (buf.take L).drop pos
          = buf.getD pos 0 :: (buf.take L).drop (pos + 1) := by
        rw [List.drop_eq_getElem_cons hlen, List.getElem_take,
          List.getD_eq_getElem buf 0 (by omega)]
      simp only [parseDigitsLoop]
      rw [hdrop2]
      have ih2 := fun acc2 => ih (pos + 1) acc2 (by omega) (by omega)
      generalize hgen : buf.getD pos 0 = c at ih2 hdrop2 ⊢
      by_cases h32 : c = 32
      · rw [if_pos h32]
        subst h32
        simp [List.takeWhile_cons, List.any_cons]
      · by_cases hdig : 48 ≤ c ∧ c ≤ 57
        · rw [if_neg h32, if_pos hdig,
            ih2 ((acc * 10 % 4294967296 + (c - 48)) % 4294967296)]
          simp [List.any_cons, List.takeWhile_cons, h32, hdig]
        · rw [if_neg h32, if_neg hdig]
          have hnot : (decide ¬(c = 32)) = true := by simp [h32]
          have hdigb : (decide (48 ≤ c ∧ c ≤ 57)) = false := by simp [hdig]
          simp only [List.any_cons, List.takeWhile_cons, List.all_cons, hnot,
            if_true, hdigb, Bool.false_and]
          simp [h32]

/-- The space-skipping loop never advances past the end of the buffer. -/
theorem skipSpacesLoop_le (buf : List Nat) :
    ∀ (fuel pos ns : Nat), skipSpacesLoop buf fuel pos ns ≤ pos + fuel := by
  intro fuel
  induction fuel with
  | zero => intro pos ns; simp [skipSpacesLoop]
  | succ f ih =>
      intro pos ns
      simp only [skipSpacesLoop]
      by_cases h : ns < 38
      · rw [if_pos h]
        have := ih (pos + 1) (if buf.getD pos 0 = 32 then ns + 1 else ns)
        omega
      · rw [if_neg h]
        omega

/-- The wrapped fold started from a reduced accumulator computes the
unbounded decimal fold reduced modulo 2^32. -/
theorem wrapped_fold_mod (ds : List Nat) : ∀ a : Nat,
    ds.foldl (fun a d => (a * 10 % 4294967296 + (d - 48)) % 4294967296)
        (a % 4294967296)
      = (ds.foldl (fun a d => a * 10 + (d - 48)) a) % 4294967296 := by
  induction ds with
  | nil => intro a; simp
  | cons d rest ih =>
      intro a
      simp only [List.foldl_cons]
      have heq : (a % 4294967296 * 10 % 4294967296 + (d - 48)) % 4294967296
          = (a * 10 + (d - 48)) % 4294967296 := by omega
      rw [heq]
      exact ih (a * 10 + (d - 48))

/-- Claim C10 (amended): `tryParseCpu` returns -1 for every negative length
and for every buffer without a right parenthesis; otherwise it returns the
value of the decimal field located by counting 38 spaces from the start of
the buffer (`cpuFieldValue`, defined without the last-parenthesis index,
which is computed but never used) — the digit run accumulated in the 32-bit
`int cpu`, wrapping modulo 2^32 and read back as a signed int, which equals
the exact decimal integer whenever that integer is below 2^31; -1 when a
non-digit other than the terminating space appears or the buffer ends
before a space. -/
theorem tryParseCpu_spec (buf : List Nat) (length : Int) :
    (length < 0 → tryParseCpu buf length = -1) ∧
    (0 ≤ length → length.toNat ≤ buf.length →
      (∀ i, i < length.toNat → buf.getD i 0 ≠ 41) →
      tryParseCpu buf length = -1) ∧
    (0 ≤ length → length.toNat ≤ buf.length →
      (∃ i, i < length.toNat ∧ buf.getD i 0 = 41) →
      tryParseCpu buf length = cpuFieldValue buf length.toNat) ∧
    (∀ ds : List Nat, decimalValue ds < 2 ^ 31 →
      toSigned32 (decimalValue32 ds) = (decimalValue ds : Int)) := by
  refine ⟨fun hneg => by simp [tryParseCpu, hneg], ?_, ?_, ?_⟩
  · intro hpos hlen hno
    have hzero : lastRParenIndex buf length.toNat = -1 := by
      apply rparen_foldl_const
      intro i hi
      exact hno i (List.mem_range.mp hi)
    simp [tryParseCpu, hzero, if_neg (by omega : ¬ length < 0)]
  · intro hpos hlen hex
    rcases hex with ⟨i, hilt, hival⟩
    have hhit : 0 ≤ lastRParenIndex buf length.toNat :=
      rparen_foldl_hit buf _ _ ⟨i, List.mem_range.mpr hilt, hival⟩
    have hne : ¬(lastRParenIndex buf length.toNat = -1) := by omega
    have hple : skipSpacesLoop buf length.toNat 0 0 ≤ length.toNat := by
      have := skipSpacesLoop_le buf length.toNat 0 0
      omega
    have hmain := parse_digits_spec buf length.toNat hlen
      (length.toNat - skipSpacesLoop buf length.toNat 0 0)
      (skipSpacesLoop buf length.toNat 0 0) 0 rfl hple
    simp only [tryParseCpu, if_neg (by omega : ¬ length < 0),
      if_neg hne, hmain, cpuFieldValue, decimalValue32]
  · intro ds hds
    have h0 : (0 : Nat) % 4294967296 = 0 := by omega
    have hfold := wrapped_fold_mod ds 0
    rw [h0] at hfold
    have hsmall : decimalValue ds % 4294967296 = decimalValue ds := by
      have : decimalValue ds < 4294967296 := by
        have h31 : (2 : Nat) ^ 31 < 4294967296 := by omega
        omega
      omega
    simp only [decimalValue32, decimalValue] at hfold hsmall ⊢
    rw [hfold, hsmall, toSigned32]
    rw [if_pos]
    have h31 : (2 : Nat) ^ 31 = 2147483648 := by omega
    simp only [decimalValue] at hds
    omega

/-- Witness for C10: a negative length, a parenthesis-free buffer, a buffer
holding a parenthesis, 38 spaces and the field "7 ", and the no-wrap case
for the single digit 7. -/
theorem tryParseCpu_spec_witness :
    tryParseCpu [] (-1) = -1 ∧
    tryParseCpu [48] 1 = -1 ∧
    tryParseCpu (41 :: (List.replicate 38 32 ++ [55, 32])) 41
      = cpuFieldValue (41 :: (List.replicate 38 32 ++ [55, 32])) 41 ∧
    toSigned32 (decimalValue32 [55]) = (decimalValue [55] : Int) :=
  ⟨(tryParseCpu_spec [] (-1)).1 (by decide),
   (tryParseCpu_spec [48] 1).2.1 (by decide) (by decide) (by decide),
   (tryParseCpu_spec (41 :: (List.replicate 38 32 ++ [55, 32])) 41).2.2.1
     (by decide) (by decide) ⟨0, by decide, by decide⟩,
   (tryParseCpu_spec [] 0).2.2.2 [55] (by decide)⟩

/-- Counterexample to C10 as stated: on the buffer holding a parenthesis,
38 spaces and the ten-digit field "9999999999 ", the 32-bit accumulator of
the source wraps, and tryParseCpu returns 9999999999 mod 2^32 = 1410065407
rather than the exact decimal integer 9999999999. -/
theorem tryParseCpu_wraps_large_fields : ¬ tryParseCpuReturnsExactDecimal := by
  intro h
  have hh := h
    (41 :: (List.replicate 38 32 ++ (List.replicate 10 57 ++ [32]))) 50
    (by decide) (by decide) ⟨0, by decide, by decide⟩
  exact absurd hh (by decide)

/-- Reading any other cell after an update gives the old value. -/
theorem upd_other {α : Type} [DecidableEq α] {β : Type} (f : α → β) (a : α)
    (b : β) (x : α) (h : x ≠ a) : upd f a b x = f x := by
  simp [upd, h]

/-- The head of the free-list chain is the head of the ghost node list. -/
theorem chainOK_head (items : Nat → ItemCell) (h : Nat) (nodes : List Nat)
    (hc : chainOK items h nodes) : h = nodes.headD 0 := by
  cases nodes with
  | nil => exact hc
  | cons x rest => exact hc.1

/-- A chain headed by the null id 0 is empty. -/
theorem chainOK_zero (items : Nat → ItemCell) (nodes : List Nat)
    (hc : chainOK items 0 nodes) : nodes = [] := by
  cases nodes with
  | nil => rfl
  | cons x rest => exact absurd hc.1.symm hc.2.1

/-- Writing a cell outside the chain leaves the chain intact. -/
theorem chainOK_upd_not_mem (items : Nat → ItemCell) (x : Nat) (c : ItemCell)
    (h : Nat) (nodes : List Nat) (hx : x ∉ nodes)
    (hc : chainOK items h nodes) : chainOK (upd items x c) h nodes := by
  induction nodes generalizing h with
  | nil => exact hc
  | cons y rest ih =>
      obtain ⟨hhy, hy0, hnext, hrest⟩ := hc
      have hxy : y ≠ x := fun hcon =>
        hx (hcon ▸ List.mem_cons_self y rest)
      refine ⟨hhy, hy0, ?_, ?_⟩
      · rw [upd_other items x c y hxy]
        exact hnext
      · exact ih (rest.headD 0) (fun hmem => hx (List.mem_cons_of_mem y hmem))
          hrest

/-- `free` preserves the allocator invariant when the freed id is live. -/
theorem allocInv_free (m : AllocModel) (id : Nat) (hInv : allocInv m)
    (hid : id ∈ m.live) : allocInv (ghostStep m (AllocOp.free id)) := by
  obtain ⟨hfu, hchain, hnodup, hiff⟩ := hInv
  have hid1 : 1 ≤ id ∧ id < m.alloc.firstUntouchedId :=
    (hiff id).mpr (List.mem_append_left _ hid)
  have hperm : (m.live ++ m.freeNodes).Perm
      (m.live.erase id ++ id :: m.freeNodes) :=
    ((List.perm_cons_erase hid).append_right m.freeNodes).trans
      List.perm_middle.symm
  have hnotfree : id ∉ m.freeNodes := by
    intro hmem
    have := List.disjoint_of_nodup_append hnodup
    exact this hid hmem
  refine ⟨hfu, ?_, hperm.nodup hnodup, ?_⟩
  · simp only [ghostStep, IdAllocator.freeId]
    refine ⟨rfl, by omega, ?_, ?_⟩
    · rw [upd_self]
      congr 1
      exact chainOK_head _ _ _ hchain
    · rw [← chainOK_head _ _ _ hchain]
      exact chainOK_upd_not_mem _ _ _ _ _ hnotfree hchain
  · intro j
    simp only [ghostStep]
    rw [← hperm.mem_iff]
    exact hiff j

/-- `allocate` preserves the allocator invariant. -/
theorem allocInv_alloc (m : AllocModel) (o : Nat) (hInv : allocInv m) :
    allocInv (ghostStep m (AllocOp.alloc o)) := by
  obtain ⟨hfu, hchain, hnodup, hiff⟩ := hInv
  by_cases hhead : m.alloc.freeListHead ≠ 0
  · obtain ⟨h, rest, hfn⟩ : ∃ h rest, m.freeNodes = h :: rest := by
      cases hfn : m.freeNodes with
      | nil =>
          rw [hfn] at hchain
          exact absurd hchain hhead
      | cons x r => exact ⟨x, r, rfl⟩
    rw [hfn] at hchain hnodup hiff
    obtain ⟨hh, h0, hnext, hrest⟩ := hchain
    subst hh
    have hnotrest : m.alloc.freeListHead ∉ rest := by
      have := (List.nodup_append.mp hnodup).2.1
      exact (List.nodup_cons.mp this).1
    have hperm : (m.live ++ m.alloc.freeListHead :: rest).Perm
        ((m.alloc.freeListHead :: m.live) ++ rest) :=
      List.perm_middle
    have hgs : ghostStep m (AllocOp.alloc o)
        = { alloc := { m.alloc with
              freeListHead := nextOf (m.alloc.items m.alloc.freeListHead),
              items :=
                upd m.alloc.items m.alloc.freeListHead (ItemCell.owner o) },
            live := m.alloc.freeListHead :: m.live,
            freeNodes := rest } := by
      simp [ghostStep, IdAllocator.allocate, hhead, hfn]
    rw [hgs]
    refine ⟨hfu, ?_, hperm.nodup hnodup, ?_⟩
    · simp only [nextOf, hnext]
      exact chainOK_upd_not_mem _ _ _ _ _ hnotrest hrest
    · intro j
      rw [← hperm.mem_iff]
      exact hiff j
  · push_neg at hhead
    have hfn : m.freeNodes = [] := by
      rw [hhead] at hchain
      exact chainOK_zero _ _ hchain
    rw [hfn] at hnodup hiff
    simp only [List.append_nil] at hnodup hiff
    have hfunot : m.alloc.firstUntouchedId ∉ m.live := by
      intro hmem
      have := (hiff m.alloc.firstUntouchedId).mpr hmem
      omega
    have hgs : ghostStep m (AllocOp.alloc o)
        = { alloc := { m.alloc with
              firstUntouchedId := m.alloc.firstUntouchedId + 1,
              items :=
                upd m.alloc.items m.alloc.firstUntouchedId
                  (ItemCell.owner o) },
            live := m.alloc.firstUntouchedId :: m.live,
            freeNodes := [] } := by
      simp [ghostStep, IdAllocator.allocate, hhead, hfn]
    rw [hgs]
    refine ⟨?_, hhead, ?_, ?_⟩
    · show 1 ≤ m.alloc.firstUntouchedId + 1
      omega
    · simp only [List.append_nil]
      exact List.nodup_cons.mpr ⟨hfunot, hnodup⟩
    · intro j
      simp only [List.append_nil]
      constructor
      · intro hj
        rcases Nat.lt_succ_iff_lt_or_eq.mp hj.2 with hlt | heq
        · exact List.mem_cons_of_mem _ ((hiff j).mp ⟨hj.1, hlt⟩)
        · rw [heq]
          exact List.mem_cons_self _ _
      · intro hj
        rcases List.mem_cons.mp hj with rfl | hmem
        · omega
        · have := (hiff j).mpr hmem
          omega

/-- Running the empty trace changes nothing. -/
theorem runTrace_nil (m : AllocModel) : runTrace m [] = m := rfl

/-- Soundness of every trace that respects the liveness bound: all returned
ids and all accessed backing-array indices stay below `M`, counting the
high-water mark along the way. -/
theorem alloc_trace_sound (M : Nat) :
    ∀ (ops : List AllocOp) (m : AllocModel),
    allocInv m →
    m.live.length + m.freeNodes.length + 1 = m.alloc.firstUntouchedId →
    m.alloc.firstUntouchedId ≤ M →
    traceOK M m ops = true →
    (∀ r ∈ traceResults m ops, 1 ≤ r ∧ r < M) ∧
    (∀ ix ∈ traceAccesses m ops, ix < M) ∧
    (∀ id ∈ (runTrace m ops).live, id < M) := by
  intro ops
  induction ops with
  | nil =>
      intro m hInv hcount hle htr
      refine ⟨by simp [traceResults], by simp [traceAccesses], ?_⟩
      intro id hid
      have := (hInv.2.2.2 id).mpr (List.mem_append_left _ hid)
      omega
  | cons op rest ih =>
      intro m hInv hcount hle htr
      cases op with
      | alloc o =>
          simp only [traceOK, Bool.and_eq_true, decide_eq_true_eq] at htr
          obtain ⟨hbound, htr'⟩ := htr
          have hInv' := allocInv_alloc m o hInv
          by_cases hhead : m.alloc.freeListHead ≠ 0
          · obtain ⟨h, rest2, hfn⟩ : ∃ h rest2, m.freeNodes = h :: rest2 := by
              cases hfn : m.freeNodes with
              | nil =>
                  have hch := hInv.2.1
                  rw [hfn] at hch
                  exact absurd hch hhead
              | cons x r => exact ⟨x, r, rfl⟩
            have hh : m.alloc.freeListHead = h := by
              have := hInv.2.1
              rw [hfn] at this
              exact this.1
            have hhmem : h ∈ m.live ++ m.freeNodes := by
              rw [hfn]
              exact List.mem_append_right _ (List.mem_cons_self h rest2)
            have hhb := (hInv.2.2.2 h).mpr hhmem
            have h0 : h ≠ 0 := hh ▸ hhead
            have hres : (m.alloc.allocate o).1 = h := by
              simp [IdAllocator.allocate, hh, h0]
            have hacc : (m.alloc.allocate o).2.2 = [h] := by
              simp [IdAllocator.allocate, hh, h0]
            have hcount' :
                (ghostStep m (AllocOp.alloc o)).live.length +
                  (ghostStep m (AllocOp.alloc o)).freeNodes.length + 1
                  = (ghostStep m (AllocOp.alloc o)).alloc.firstUntouchedId := by
              simp [ghostStep, IdAllocator.allocate, hhead, hfn]
              rw [hfn] at hcount
              simp at hcount
              omega
            have hle' :
                (ghostStep m (AllocOp.alloc o)).alloc.firstUntouchedId ≤ M := by
              simp [ghostStep, IdAllocator.allocate, hhead]
              exact hle
            obtain ⟨ihr, iha, ihl⟩ := ih (ghostStep m (AllocOp.alloc o)) hInv'
              hcount' hle' htr'
            refine ⟨?_, ?_, ihl⟩
            · intro r hr
              simp only [traceResults, hres, List.mem_cons] at hr
              rcases hr with rfl | hr
              · omega
              · exact ihr r hr
            · intro ix hix
              simp only [traceAccesses, hacc, List.mem_append,
                List.mem_singleton] at hix
              rcases hix with rfl | hix
              · omega
              · exact iha ix hix
          · push_neg at hhead
            have hfn : m.freeNodes = [] := by
              have := hInv.2.1
              rw [hhead] at this
              exact chainOK_zero _ _ this
            have hres : (m.alloc.allocate o).1 = m.alloc.firstUntouchedId := by
              simp [IdAllocator.allocate, hhead]
            have hacc : (m.alloc.allocate o).2.2
                = [m.alloc.firstUntouchedId] := by
              simp [IdAllocator.allocate, hhead]
            have hfuM : m.alloc.firstUntouchedId < M := by
              rw [hfn] at hcount
              simp at hcount
              omega
            have hcount' :
                (ghostStep m (AllocOp.alloc o)).live.length +
                  (ghostStep m (AllocOp.alloc o)).freeNodes.length + 1
                  = (ghostStep m (AllocOp.alloc o)).alloc.firstUntouchedId := by
              simp [ghostStep, IdAllocator.allocate, hhead, hfn]
              rw [hfn] at hcount
              simp at hcount
              omega
            have hle' :
                (ghostStep m (AllocOp.alloc o)).alloc.firstUntouchedId ≤ M := by
              simp [ghostStep, IdAllocator.allocate, hhead]
              omega
            obtain ⟨ihr, iha, ihl⟩ := ih (ghostStep m (AllocOp.alloc o)) hInv'
              hcount' hle' htr'
            refine ⟨?_, ?_, ihl⟩
            · intro r hr
              simp only [traceResults, hres, List.mem_cons] at hr
              rcases hr with rfl | hr
              · have := hInv.1
                omega
              · exact ihr r hr
            · intro ix hix
              simp only [traceAccesses, hacc, List.mem_append,
                List.mem_singleton] at hix
              rcases hix with rfl | hix
              · omega
              · exact iha ix hix
      | free id =>
          simp only [traceOK, Bool.and_eq_true] at htr
          obtain ⟨hc, htr'⟩ := htr
          have hidlive : id ∈ m.live := by simpa using hc
          have hInv' := allocInv_free m id hInv hidlive
          have hidb := (hInv.2.2.2 id).mpr (List.mem_append_left _ hidlive)
          have hcount' :
              (ghostStep m (AllocOp.free id)).live.length +
                (ghostStep m (AllocOp.free id)).freeNodes.length + 1
                = (ghostStep m (AllocOp.free id)).alloc.firstUntouchedId := by
            simp [ghostStep, IdAllocator.freeId]
            rw [List.length_erase_of_mem hidlive]
            have : 1 ≤ m.live.length := List.length_pos.mpr
              (List.ne_nil_of_mem hidlive)
            omega
          have hle' :
              (ghostStep m (AllocOp.free id)).alloc.firstUntouchedId ≤ M := by
            simp [ghostStep, IdAllocator.freeId]
            exact hle
          obtain ⟨ihr, iha, ihl⟩ := ih (ghostStep m (AllocOp.free id)) hInv'
            hcount' hle' htr'
          refine ⟨?_, ?_, ihl⟩
          · intro r hr
            simp only [traceResults] at hr
            exact ihr r hr
          · intro ix hix
            simp only [traceAccesses, IdAllocator.freeId, List.mem_append,
              List.mem_singleton] at hix
            rcases hix with rfl | hix
            · omega
            · exact iha ix hix

/-- The allocator invariant holds at construction. -/
theorem allocInv_init (M : Nat) : allocInv (initAllocModel M) := by
  refine ⟨le_refl 1, rfl, List.nodup_nil, ?_⟩
  intro j
  simp [initAllocModel, IdAllocator.mk0]
  omega

/-- Claim C9: `allocate` has no bound check against `maxElements_`; under the
precondition that at most `maxElements - 1` ids are ever live simultaneously
(and frees target live ids), every returned id lies in [1, maxElements) and
every backing-array access of allocate, free and lookupOwner (the latter on
live ids) is in bounds — and without the precondition, the second allocate
on a 2-element allocator already writes `items_[2]`, one past the end. -/
theorem idAllocator_bounds :
    (∀ (M : Nat) (ops : List AllocOp), 1 ≤ M →
      traceOK M (initAllocModel M) ops = true →
      (∀ r ∈ traceResults (initAllocModel M) ops, 1 ≤ r ∧ r < M) ∧
      (∀ ix ∈ traceAccesses (initAllocModel M) ops, ix < M) ∧
      (∀ id ∈ (runTrace (initAllocModel M) ops).live, id < M)) ∧
    (traceAccesses (initAllocModel 2) [AllocOp.alloc 0, AllocOp.alloc 0]
        = [1, 2] ∧
      ¬(2 < (initAllocModel 2).alloc.maxElements)) := by
  constructor
  · intro M ops hM htr
    exact alloc_trace_sound M ops (initAllocModel M) (allocInv_init M)
      (by simp [initAllocModel, IdAllocator.mk0]) (by simpa [initAllocModel, IdAllocator.mk0]) htr
  · constructor <;> decide

/-- Witness for C9: a concrete in-bounds trace on a 3-element allocator. -/
theorem idAllocator_bounds_witness :
    (∀ r ∈ traceResults (initAllocModel 3)
        [AllocOp.alloc 0, AllocOp.free 1, AllocOp.alloc 0], 1 ≤ r ∧ r < 3) ∧
    (∀ ix ∈ traceAccesses (initAllocModel 3)
        [AllocOp.alloc 0, AllocOp.free 1, AllocOp.alloc 0], ix < 3) :=
  ⟨(idAllocator_bounds.1 3 [AllocOp.alloc 0, AllocOp.free 1, AllocOp.alloc 0]
      (by decide) (by decide)).1,
    (idAllocator_bounds.1 3 [AllocOp.alloc 0, AllocOp.free 1, AllocOp.alloc 0]
      (by decide) (by decide)).2.1⟩

/-- The allocator invariant holds after any trace whose frees are valid. -/
theorem allocInv_runTrace :
    ∀ (ops : List AllocOp) (m : AllocModel), allocInv m →
    freesValid m ops = true → allocInv (runTrace m ops) := by
  intro ops
  induction ops with
  | nil => intro m hInv _; exact hInv
  | cons op rest ih =>
      intro m hInv hfv
      cases op with
      | alloc o =>
          simp only [freesValid] at hfv
          exact ih _ (allocInv_alloc m o hInv) hfv
      | free id =>
          simp only [freesValid, Bool.and_eq_true] at hfv
          obtain ⟨hc, hfv'⟩ := hfv
          have hidlive : id ∈ m.live := by simpa using hc
          exact ih _ (allocInv_free m id hInv hidlive) hfv'

/-- Claim C7 (amended): `allocate` never returns 0; when the free list is
non-empty it pops its head — the most recently freed not-yet-reallocated id —
and only when the free list is empty does it take the high-water mark, which
is then the smallest id never yet allocated. -/
theorem allocate_behavior (M : Nat) (ops : List AllocOp) (o : Nat)
    (hwf : freesValid (initAllocModel M) ops = true) :
    ((runTrace (initAllocModel M) ops).alloc.allocate o).1 ≠ 0 ∧
    ((runTrace (initAllocModel M) ops).alloc.freeListHead ≠ 0 →
      ((runTrace (initAllocModel M) ops).alloc.allocate o).1
        = (runTrace (initAllocModel M) ops).freeNodes.headD 0) ∧
    ((runTrace (initAllocModel M) ops).alloc.freeListHead = 0 →
      ((runTrace (initAllocModel M) ops).alloc.allocate o).1
          = (runTrace (initAllocModel M) ops).alloc.firstUntouchedId ∧
        ((runTrace (initAllocModel M) ops).alloc.allocate o).1
          ∉ everAllocated (runTrace (initAllocModel M) ops) ∧
        ∀ j, 1 ≤ j → j ∉ everAllocated (runTrace (initAllocModel M) ops) →
          ((runTrace (initAllocModel M) ops).alloc.allocate o).1 ≤ j) := by
  have hInv := allocInv_runTrace ops (initAllocModel M) (allocInv_init M) hwf
  set m := runTrace (initAllocModel M) ops with hm
  obtain ⟨hfu, hchain, hnodup, hiff⟩ := hInv
  by_cases hhead : m.alloc.freeListHead ≠ 0
  · have hres : (m.alloc.allocate o).1 = m.alloc.freeListHead := by
      simp [IdAllocator.allocate, hhead]
    have hh := chainOK_head _ _ _ hchain
    refine ⟨by rw [hres]; exact hhead, fun _ => by rw [hres, hh], ?_⟩
    intro hcon
    exact absurd hcon hhead
  · push_neg at hhead
    have hfn : m.freeNodes = [] := by
      rw [hhead] at hchain
      exact chainOK_zero _ _ hchain
    have hres : (m.alloc.allocate o).1 = m.alloc.firstUntouchedId := by
      simp [IdAllocator.allocate, hhead]
    have hnotin : m.alloc.firstUntouchedId ∉ everAllocated m := by
      intro hmem
      have := (hiff m.alloc.firstUntouchedId).mpr hmem
      omega
    refine ⟨by rw [hres]; omega, fun hcon => absurd hhead hcon, fun _ => ?_⟩
    refine ⟨hres, by rw [hres]; exact hnotin, ?_⟩
    intro j hj1 hjnot
    rw [hres]
    by_contra hlt
    push_neg at hlt
    exact hjnot ((hiff j).mp ⟨hj1, hlt⟩)

/-- Witness for C7 after one allocate and one free: the reallocation returns
the freed id 1, the head of the free list. -/
theorem allocate_behavior_witness :
    ((runTrace (initAllocModel 4) [AllocOp.alloc 5, AllocOp.free 1]).alloc.allocate
        6).1 ≠ 0 ∧
    ((runTrace (initAllocModel 4) [AllocOp.alloc 5, AllocOp.free 1]).alloc.allocate
        6).1
      = (runTrace (initAllocModel 4)
          [AllocOp.alloc 5, AllocOp.free 1]).freeNodes.headD 0 :=
  ⟨(allocate_behavior 4 [AllocOp.alloc 5, AllocOp.free 1] 6 (by decide)).1,
    (allocate_behavior 4 [AllocOp.alloc 5, AllocOp.free 1] 6 (by decide)).2.1
      (by decide)⟩

/-- Counterexample to C7 as stated: after allocating ids 1 and 2 and freeing
them in that order, the next allocate returns 2 (the most recently freed id),
which has been allocated before — not the smallest-ever-unallocated id 3
(nor the smallest currently free id 1). -/
theorem allocate_not_smallest : ¬ allocReturnsSmallestEverUnallocated := by
  intro h
  have hh := h [AllocOp.alloc 0, AllocOp.alloc 0, AllocOp.free 1,
    AllocOp.free 2] 0 (by decide)
  exact hh.2.1 (by decide)

/-- Counterexample to C1 as stated: thread 2 owns shard 0; thread 1, entering
the slow path, stores the OS-reported CPU 0 into its cached-CPU cell at the
top of the acquisition loop while shard 0's ownerId is still 2 — a
non-negative cached-CPU value for a shard the thread does not own. -/
theorem cachedCpu_written_before_ownership : ¬ writesNonnegOnlyWhenOwner := by
  intro h
  have hh := h
    [⟨2, ActKind.callBeginSlowPath⟩, ⟨2, ActKind.cont 0⟩, ⟨2, ActKind.cont 0⟩,
     ⟨2, ActKind.cont 0⟩, ⟨2, ActKind.cont 0⟩, ⟨2, ActKind.cont 0⟩,
     ⟨2, ActKind.cont 0⟩,
     ⟨1, ActKind.callBeginSlowPath⟩, ⟨1, ActKind.cont 0⟩, ⟨1, ActKind.cont 0⟩,
     ⟨1, ActKind.cont 0⟩]
    ⟨1, ActKind.cont 0⟩ 1 0 (by decide) (by decide)
  exact absurd hh (by decide)

/-- Claim C1 (amended): a non-negative value is written into a cached-CPU
cell only by the cell's own thread at the top of the slow-path acquisition
loop (`lastCpu = sched_getcpu(); threadCachedCpu()->store(lastCpu)`), which
may happen before the thread owns that shard; ownership is guaranteed only
at return: whenever the slow path returns shard `v`, the returning thread
has just installed itself as owner of `v`. -/
theorem cachedCpu_write_discipline :
    (∀ (g : GState) (a : Act) (tgt : Nat) (v : Int),
      stepLabel g a = Label.writeCached tgt v → 0 ≤ v →
      (g.ts a.tid).pc = PC.acqStoreCached ∧ tgt = a.tid ∧
        a.kind = ActKind.cont v) ∧
    (∀ (g : GState) (a : Act) (t : Nat) (v : Int),
      stepLabel g a = Label.ret t v →
      t = a.tid ∧ ((step g a).1.ownerAndEvictor v).ownerId = a.tid) := by
  constructor
  · intro g a tgt v hl hv
    rcases a with ⟨tid, k⟩
    rcases hpc : (g.ts tid).pc <;> rcases k
    all_goals simp only [stepLabel, step, hpc] at hl ⊢
    all_goals try split at hl
    all_goals simp_all
    all_goals (obtain ⟨h1, h2⟩ := hl; omega)
  · intro g a t v hl
    rcases a with ⟨tid, k⟩
    rcases hpc : (g.ts tid).pc <;> rcases k
    all_goals simp only [stepLabel, step, hpc] at hl ⊢
    all_goals try split at hl
    all_goals simp_all [upd_self]
    all_goals (obtain ⟨h1, h2⟩ := hl; subst h1; rw [← h2, upd_self])

/-- Witness for C1: thread 2 at the top of the acquisition loop performs the
non-negative cached-CPU write with input 0. -/
theorem cachedCpu_write_discipline_witness :
    ((run [⟨2, ActKind.callBeginSlowPath⟩, ⟨2, ActKind.cont 0⟩,
        ⟨2, ActKind.cont 0⟩, ⟨2, ActKind.cont 0⟩]).ts 2).pc
        = PC.acqStoreCached ∧
      (2 : Nat) = 2 ∧ ActKind.cont 0 = ActKind.cont 0 :=
  cachedCpu_write_discipline.1
    (run [⟨2, ActKind.callBeginSlowPath⟩, ⟨2, ActKind.cont 0⟩,
      ⟨2, ActKind.cont 0⟩, ⟨2, ActKind.cont 0⟩])
    ⟨2, ActKind.cont 0⟩ 2 0 (by decide) (by decide)

/-- One transition preserves the `accessing` invariant for every thread. -/
theorem accessingInv_step (g : GState) (a : Act)
    (hInv : ∀ u, accessingInv (g.ts u)) :
    ∀ u, accessingInv ((step g a).1.ts u) := by
  intro u
  rcases a with ⟨tid, k⟩
  have hu := hInv u
  have ht := hInv tid
  have hv := hInv (g.ts tid).curOwner
  rcases hpc : (g.ts tid).pc <;> rcases k
  all_goals simp only [step, hpc]
  all_goals try split
  all_goals try split
  all_goals (
    first
      | exact hu
      | (by_cases hut : u = tid
         · subst hut
           simp only [accessingInv, hpc, false_or, or_false] at ht hu ⊢
           simp only [upd, if_pos rfl]
           simp [accessingInv]
           try simp_all
           try (have ht2 := ht (by simp)
                by_cases hc : u = (g.ts u).curOwner
                · simp only [if_pos hc]
                  show (g.ts ((g.ts u).curOwner)).accessing
                      = (g.ts ((g.ts u).curOwner)).curOwner
                  rw [← hc]
                  exact ht2
                · simp only [if_neg hc]
                  exact ht2)
         · simp only [upd, if_neg hut]
           first
             | exact hu
             | (by_cases huv : u = (g.ts tid).curOwner
                · subst huv
                  simp [accessingInv] at hv ⊢
                  try simp_all
                · simp [if_neg huv]
                  exact hu)))

/-- The `accessing` invariant holds along any run from a state satisfying
it. -/
theorem accessingInv_runFrom :
    ∀ (acts : List Act) (g : GState), (∀ u, accessingInv (g.ts u)) →
    ∀ u, accessingInv ((runFrom g acts).ts u) := by
  intro acts
  induction acts with
  | nil => intro g hg; exact hg
  | cons a rest ih =>
      intro g hg
      exact ih (step g a).1 (accessingInv_step g a hg)

/-- The `accessing` invariant holds in every reachable state. -/
theorem accessingInv_run (acts : List Act) :
    ∀ u, accessingInv ((run acts).ts u) := by
  apply accessingInv_runFrom
  intro u hmem
  rcases hmem with h | h | h | h | h | h | h | h <;>
    simp [initState, initTState] at h

/-- A transition emits a patch label only from the two blockRseqOps call
sites, and the patched stub is the one of the owner id the thread loaded. -/
theorem patch_label_cases (g : GState) (a : Act) (victim : Nat) (shard : Int)
    (hl : stepLabel g a = Label.patchStub victim shard) :
    ((g.ts a.tid).pc = PC.acqBlockPatch ∨ (g.ts a.tid).pc = PC.evBlockPatch) ∧
      victim = (g.ts a.tid).curOwner := by
  rcases a with ⟨tid, k⟩
  rcases hpc : (g.ts tid).pc <;> rcases k
  all_goals simp only [stepLabel, step, hpc] at hl ⊢
  all_goals try split at hl
  all_goals simp_all

/-- Claim C2 (amended): a stub's code bytes are stored to only by its owning
thread (unpatching in `beginSlowPath`) or by a thread that has published the
victim's id in its `accessing` cell (both eviction call sites of
`blockRseqOps`); holding the evictor slot is not required on the
`evictOwner` path. -/
theorem patch_unpatch_discipline :
    (∀ (acts : List Act) (a : Act) (victim : Nat) (shard : Int),
      stepLabel (run acts) a = Label.patchStub victim shard →
      ((run acts).ts a.tid).accessing = victim) ∧
    (∀ (g : GState) (a : Act) (o : Nat),
      stepLabel g a = Label.unpatchStub o → o = a.tid) := by
  constructor
  · intro acts a victim shard hl
    obtain ⟨hpcs, hvict⟩ := patch_label_cases (run acts) a victim shard hl
    have hinv := accessingInv_run acts a.tid
    rw [hvict]
    apply hinv
    rcases hpcs with h | h <;> simp [h]
  · intro g a o hl
    rcases a with ⟨tid, k⟩
    rcases hpc : (g.ts tid).pc <;> rcases k
    all_goals simp only [stepLabel, step, hpc] at hl ⊢
    all_goals try split at hl
    all_goals simp_all

/-- Counterexample to C2 as stated: thread 2 owns shard 0; thread 1 runs
`fenceWith(0)` and patches thread 2's stubs in `evictOwner` while shard 0's
evictor slot is 0 — `evictOwner` never installs itself as evictor. -/
theorem patch_without_evictor_slot : ¬ patchOnlyWithEvictorSlot := by
  intro h
  have hh := h
    [⟨2, ActKind.callBeginSlowPath⟩, ⟨2, ActKind.cont 0⟩, ⟨2, ActKind.cont 0⟩,
     ⟨2, ActKind.cont 0⟩, ⟨2, ActKind.cont 0⟩, ⟨2, ActKind.cont 0⟩,
     ⟨2, ActKind.cont 0⟩,
     ⟨1, ActKind.callFenceWith 0⟩, ⟨1, ActKind.cont 0⟩, ⟨1, ActKind.cont 0⟩,
     ⟨1, ActKind.cont 0⟩, ⟨1, ActKind.cont 0⟩]
    ⟨1, ActKind.cont 0⟩ 2 0 (by decide)
  exact absurd hh (by decide)

/-- Witness for C2: in the `fenceWith` eviction trace, the patching thread's
`accessing` cell holds the victim id 2; the unpatch part applied where
thread 2 unblocks its own stubs. -/
theorem patch_unpatch_discipline_witness :
    ((run [⟨2, ActKind.callBeginSlowPath⟩, ⟨2, ActKind.cont 0⟩,
        ⟨2, ActKind.cont 0⟩, ⟨2, ActKind.cont 0⟩, ⟨2, ActKind.cont 0⟩,
        ⟨2, ActKind.cont 0⟩, ⟨2, ActKind.cont 0⟩, ⟨1, ActKind.callFenceWith 0⟩,
        ⟨1, ActKind.cont 0⟩, ⟨1, ActKind.cont 0⟩, ⟨1, ActKind.cont 0⟩,
        ⟨1, ActKind.cont 0⟩]).ts 1).accessing = 2 ∧
    (2 : Nat) = 2 :=
  ⟨patch_unpatch_discipline.1
      [⟨2, ActKind.callBeginSlowPath⟩, ⟨2, ActKind.cont 0⟩, ⟨2, ActKind.cont 0⟩,
       ⟨2, ActKind.cont 0⟩, ⟨2, ActKind.cont 0⟩, ⟨2, ActKind.cont 0⟩,
       ⟨2, ActKind.cont 0⟩, ⟨1, ActKind.callFenceWith 0⟩, ⟨1, ActKind.cont 0⟩,
       ⟨1, ActKind.cont 0⟩, ⟨1, ActKind.cont 0⟩, ⟨1, ActKind.cont 0⟩]
      ⟨1, ActKind.cont 0⟩ 2 0 (by decide),
    patch_unpatch_discipline.2
      (run [⟨2, ActKind.callBeginSlowPath⟩, ⟨2, ActKind.cont 0⟩,
        ⟨2, ActKind.cont 0⟩]) ⟨2, ActKind.cont 0⟩ 2 (by decide)⟩

/-- One transition with in-range CPU inputs preserves the `lastCpu`
invariant for every thread. -/
theorem lastCpuInv_step (C : Nat) (g : GState) (a : Act)
    (ha : ∀ c : Int, a.kind = ActKind.cont c → 0 ≤ c ∧ c < (C : Int))
    (hInv : ∀ u, lastCpuInv C (g.ts u)) :
    ∀ u, lastCpuInv C ((step g a).1.ts u) := by
  intro u
  rcases a with ⟨tid, k⟩
  have hu := hInv u
  have ht := hInv tid
  have hv := hInv (g.ts tid).curOwner
  rcases hpc : (g.ts tid).pc <;> rcases k
  all_goals simp only [step, hpc]
  all_goals try split
  all_goals try split
  all_goals (
    first
      | exact hu
      | (by_cases hut : u = tid
         · subst hut
           simp only [lastCpuInv, hpc, false_or, or_false] at ht hu ⊢
           simp only [upd, if_pos rfl]
           try simp [lastCpuInv]
           try simp_all
           try exact ht (by simp)
           try exact ha _ rfl
           try (have ht2 := ht (by simp)
                by_cases hc : u = (g.ts u).curOwner
                · simp only [if_pos hc]
                  show 0 ≤ (g.ts ((g.ts u).curOwner)).lastCpu ∧
                    (g.ts ((g.ts u).curOwner)).lastCpu < (C : Int)
                  rw [← hc]
                  exact ht2
                · simp only [if_neg hc]
                  exact ht2)
         · simp only [upd, if_neg hut]
           first
             | exact hu
             | (by_cases huv : u = (g.ts tid).curOwner
                · subst huv
                  simp [lastCpuInv] at hv ⊢
                  try simp_all
                · simp [if_neg huv]
                  exact hu)))

/-- The `lastCpu` invariant holds along any valid run from a state
satisfying it. -/
theorem lastCpuInv_runFrom (C : Nat) :
    ∀ (acts : List Act) (g : GState), validActs C acts →
    (∀ u, lastCpuInv C (g.ts u)) →
    ∀ u, lastCpuInv C ((runFrom g acts).ts u) := by
  intro acts
  induction acts with
  | nil => intro g _ hg; exact hg
  | cons a rest ih =>
      intro g hv hg
      have ha : ∀ c : Int, a.kind = ActKind.cont c → 0 ≤ c ∧ c < (C : Int) :=
        fun c hc => hv a (List.mem_cons_self a rest) c hc
      have hrest : validActs C rest :=
        fun b hb c hc => hv b (List.mem_cons_of_mem a hb) c hc
      exact ih (step g a).1 hrest (lastCpuInv_step C g a ha hg)

/-- The `lastCpu` invariant holds in every state reachable under in-range
OS CPU queries. -/
theorem lastCpuInv_run (C : Nat) (acts : List Act) (hv : validActs C acts) :
    ∀ u, lastCpuInv C ((run acts).ts u) := by
  apply lastCpuInv_runFrom C acts initState hv
  intro u hmem
  rcases hmem with h | h | h | h | h | h | h | h | h | h | h <;>
    simp [initState, initTState] at h

/-- A transition emits a return label only at the two successful
compare-and-sets of `acquireCpuOwnership`, returning `lastCpu`. -/
theorem ret_label_cases (g : GState) (a : Act) (t : Nat) (v : Int)
    (hl : stepLabel g a = Label.ret t v) :
    ((g.ts a.tid).pc = PC.acqCasAcquire ∨ (g.ts a.tid).pc = PC.acqCasFinish) ∧
      v = (g.ts a.tid).lastCpu := by
  rcases a with ⟨tid, k⟩
  rcases hpc : (g.ts tid).pc <;> rcases k
  all_goals simp only [stepLabel, step, hpc] at hl ⊢
  all_goals try split at hl
  all_goals simp_all
  all_goals (obtain ⟨h1, h2⟩ := hl; subst h1; exact h2.symm)

/-- Claim C5: `begin()` returns the cached-CPU cell's value whenever it is
non-negative without taking the slow path; otherwise it takes the slow path,
and — provided every OS current-CPU query returns a value in [0, C) — a
slow-path return value is never negative (it lies in [0, C)). -/
theorem begin_fast_slow (C : Nat) :
    (∀ (cached slowResult : Int), 0 ≤ cached →
      rseqBegin cached slowResult = (cached, false)) ∧
    (∀ (acts : List Act) (a : Act) (t : Nat) (v : Int),
      validActs C acts → stepLabel (run acts) a = Label.ret t v →
      0 ≤ v ∧ v < (C : Int)) := by
  constructor
  · intro cached slowResult hc
    simp [rseqBegin, Int.not_lt.mpr hc]
  · intro acts a t v hv hl
    obtain ⟨hpcs, hval⟩ := ret_label_cases (run acts) a t v hl
    have hinv := lastCpuInv_run C acts hv a.tid
    rw [hval]
    apply hinv
    rcases hpcs with h | h <;> simp [h]

/-- Witness for C5: the fast path at cached value 3, and a concrete
single-CPU acquisition returning shard 0. -/
theorem begin_fast_slow_witness :
    rseqBegin 3 9 = (3, false) ∧ (0 ≤ (0 : Int) ∧ (0 : Int) < (1 : Nat)) :=
  ⟨(begin_fast_slow 1).1 3 9 (by decide),
    (begin_fast_slow 1).2
      [⟨2, ActKind.callBeginSlowPath⟩, ⟨2, ActKind.cont 0⟩, ⟨2, ActKind.cont 0⟩,
       ⟨2, ActKind.cont 0⟩, ⟨2, ActKind.cont 0⟩, ⟨2, ActKind.cont 0⟩]
      ⟨2, ActKind.cont 0⟩ 2 0
      (by intro b hb c hc; fin_cases hb <;> simp_all <;> omega) (by decide)⟩
